import Mathlib

/-!
Verification of the ipyfiledrop tabular data-extraction and cleaning pipeline
(src/ipyfiledrop/pipeline.py and the cleaning/combination wiring in
src/ipyfiledrop/filedrop.py).

Modelling conventions of this shallow embedding:
* A pandas cell value is a tagged union: the empty/NaN marker, an exact
  rational number (Python floats embed into the rationals), a string, or a
  timestamp.  Timestamps are represented by their display string; the pipeline
  never performs date arithmetic.
* A DataFrame is a `Table`: an ordered list of column names plus an ordered
  list of rows, rows being lists of cells addressed positionally (`iloc`
  semantics).  Row index labels are not modelled: every construction in the
  pipeline either builds positional frames or resets the index.
* Character classes of Python regexes are modelled over ASCII: the class
  `\w` is `[A-Za-z0-9_]`.  Number-to-string rendering (`str(v)`) is exact for
  integral values and uses a finite decimal expansion otherwise, which is
  classification-equivalent to Python float rendering for every predicate in
  the pipeline (all of which only test membership in digits/sign/dot classes).
* Python `float(...)` parsing is modelled without exponent syntax; the
  pipeline only ever feeds it cell strings of the plain decimal shape.
* Fallible Python callables (cleaner functions, which may raise) are modelled
  as functions into `Except String Table`; a raised exception is an `error`.
-/

/-- Cell values of a grid. `empty` unifies NaN/None; whitespace-only strings
are separately treated as empty by `isEmptyCell`, following `_is_empty`. -/
inductive Cell where
  | empty : Cell
  | num : ℚ → Cell
  | str : String → Cell
  | date : String → Cell
deriving DecidableEq, Repr

/-- Python `str.strip()` modelled over the character list (whitespace at
both ends removed); kernel-reducible, unlike the byte-based `String.trim`. -/
def pyStrip (s : String) : String :=
  String.mk (((s.toList.dropWhile Char.isWhitespace).reverse.dropWhile
    Char.isWhitespace).reverse)

/-- Lowercasing modelled over the character list (ASCII). -/
def lowerStr (s : String) : String :=
  String.mk (s.toList.map Char.toLower)

/-- Python `str.startswith` modelled over character lists. -/
def pyStartsWith (s pat : String) : Bool :=
  pat.toList.isPrefixOf s.toList

/-- String emptiness modelled over the character list. -/
def strIsEmpty (s : String) : Bool :=
  s.toList.isEmpty

/-- Check whether a cell is empty: NaN/None, or a string that is empty after
trimming (source: `_is_empty`). -/
def isEmptyCell : Cell → Bool
  | Cell.empty => true
  | Cell.str s => pyStrip s == ""
  | _ => false

/-- Digits of the fractional part of num/den (num < den), up to the given
number of digits.  Python float strings are finite shortest-roundtrip
decimals; the fuel bound is irrelevant for every value the pipeline renders. -/
def fracDigits : Nat → Nat → Nat → String
  | 0, _, _ => ""
  | _ + 1, 0, _ => ""
  | fuel + 1, num, den =>
      let d := num * 10 / den
      ⟨[Char.ofNat (48 + d % 10)]⟩ ++ fracDigits fuel (num * 10 % den) den

/-- Decimal rendering of a rational, modelling Python `str` of a number:
exact for integral values, finite decimal expansion otherwise. -/
def ratToStr (q : ℚ) : String :=
  let sign := if q < 0 then "-" else ""
  let n := q.num.natAbs
  let ip := n / q.den
  let fp := n % q.den
  if fp = 0 then sign ++ toString ip
  else sign ++ toString ip ++ "." ++ fracDigits 30 fp q.den

/-- Python `str(value)` of a cell. `str(NaN)` is `"nan"`; timestamps display
as their stored string. -/
def cellToStr : Cell → String
  | Cell.empty => "nan"
  | Cell.num q => ratToStr q
  | Cell.str s => s
  | Cell.date s => s

/-- Parse a digit run as a natural number together with its length. -/
def digitsVal : List Char → Nat × Nat
  | [] => (0, 0)
  | c :: rest =>
      let (v, k) := digitsVal rest
      (c.toNat - 48) * 10 ^ k + v |> fun n => (n, k + 1)

/-- Python `float(s)` on a plain decimal string (optional sign, digits,
optional dot and digits); `none` models a raised `ValueError`. -/
def parseFloat (s : String) : Option ℚ :=
  let cs := (pyStrip s).toList
  let (sgn, cs) : ℚ × List Char :=
    match cs with
    | '-' :: rest => (-1, rest)
    | '+' :: rest => (1, rest)
    | _ => (1, cs)
  let intPart := cs.takeWhile Char.isDigit
  let rest := cs.dropWhile Char.isDigit
  match rest with
  | [] =>
      if intPart.isEmpty then none
      else some (sgn * ((digitsVal intPart).1 : ℚ))
  | '.' :: fracPart =>
      if fracPart.all Char.isDigit ∧ ¬(intPart.isEmpty ∧ fracPart.isEmpty) then
        let (fv, fk) := digitsVal fracPart
        some (sgn * (((digitsVal intPart).1 : ℚ) + (fv : ℚ) / (10 ^ fk : ℚ)))
      else none
  | _ => none

/-- Truncation toward zero, modelling Python `int(...)` on a float. -/
def truncRat (q : ℚ) : Int :=
  if q < 0 then -((-q).floor) else q.floor

/-- Python `int(float(str(v).strip()))` on a cell; `none` models a raised
`ValueError`/`TypeError`.  On numeric cells this is exact truncation. -/
def cellToInt : Cell → Option Int
  | Cell.num q => some (truncRat q)
  | Cell.str s => (parseFloat s).map truncRat
  | _ => none

/-- A DataFrame: ordered column names and ordered rows of cells, addressed
positionally. -/
structure Table where
  cols : List String
  rows : List (List Cell)
deriving DecidableEq, Repr

/-- Pandas `df.empty`: true when the frame has no rows or no columns. -/
def tableEmpty (t : Table) : Bool :=
  t.rows.isEmpty || t.cols.isEmpty

/-- Column slice `df.iloc[:, j]`, positional, over all rows. -/
def colAt (t : Table) (j : Nat) : List Cell :=
  t.rows.map (fun r => r.getD j Cell.empty)

/-- Fraction of non-empty cells in a row; 0 for a zero-width row
(source: `calculate_row_density`). -/
def calculate_row_density (row : List Cell) : ℚ :=
  if row.length = 0 then 0
  else (row.countP (fun v => !isEmptyCell v) : ℚ) / (row.length : ℚ)

/-- Fraction of non-empty cells in a column slice; 0 for an empty slice
(source: `calculate_column_density`). -/
def calculate_column_density (col : List Cell) : ℚ :=
  if col.length = 0 then 0
  else (col.countP (fun v => !isEmptyCell v) : ℚ) / (col.length : ℚ)

/-- Row densities of a table, in row order. -/
def densList (t : Table) : List ℚ :=
  t.rows.map calculate_row_density

/-- Index of the first row whose density meets the threshold (the
`for i, density in enumerate(row_densities)` scan in `find_dense_region`). -/
def firstHit (thr : ℚ) : List ℚ → Option Nat
  | [] => none
  | d :: rest => if thr ≤ d then some 0 else (firstHit thr rest).map (· + 1)

/-- Structural worker of the forward-extension loop of `find_dense_region`:
walks the density suffix from absolute index `i` with current end `e` and
current consecutive-gap count `gap`. -/
def extendLoopGo (thr : ℚ) : List ℚ → Nat → Nat → Nat → Nat
  | [], _, e, _ => e
  | d :: rest, i, e, gap =>
      if thr ≤ d then extendLoopGo thr rest (i + 1) i 0
      else if gap + 1 > 2 then e
      else extendLoopGo thr rest (i + 1) e (gap + 1)

/-- The forward-extension loop of `find_dense_region`: starting at absolute
index `i` with current end `e` and current consecutive-gap count `gap`,
extend while density meets the threshold, tolerating at most 2 consecutive
sparse rows (`max_gap = 2`). -/
def extendLoop (ds : List ℚ) (thr : ℚ) (i e gap : Nat) : Nat :=
  extendLoopGo thr (ds.drop i) i e gap

/-- Index-based unfolding of the loop. -/
theorem extendLoop_eq (ds : List ℚ) (thr : ℚ) (i e gap : Nat) :
    extendLoop ds thr i e gap =
      if i < ds.length then
        (if thr ≤ ds.getD i 0 then extendLoop ds thr (i + 1) i 0
         else if gap + 1 > 2 then e
         else extendLoop ds thr (i + 1) e (gap + 1))
      else e := by
  unfold extendLoop
  cases hd : ds.drop i with
  | nil =>
      have hil : ds.length ≤ i := by
        have := List.drop_eq_nil_iff_le.mp hd
        omega
      rw [extendLoopGo, if_neg (by omega)]
  | cons d rest =>
      have hlen : i < ds.length := by
        by_contra hge
        rw [List.drop_eq_nil_of_le (by omega)] at hd
        exact absurd hd (by simp)
      have hgd : ds.getD i 0 = d := by
        have h0 : (ds.drop i)[0]? = some d := by rw [hd]; simp
        rw [List.getElem?_drop] at h0
        simp only [Nat.add_zero] at h0
        rw [List.getD_eq_getElem?_getD, h0]
        rfl
      have hrest : ds.drop (i + 1) = rest := by
        have := List.tail_drop ds i
        rw [hd] at this
        simpa using this.symm
      rw [extendLoopGo, if_pos hlen, hgd, hrest]

/-- Find the first and last rows forming a contiguous dense region
(source: `find_dense_region`, default threshold 0.4). -/
def find_dense_region (t : Table) (thr : ℚ) : Nat × Nat :=
  if tableEmpty t then (0, 0)
  else
    let ds := densList t
    match firstHit thr ds with
    | none => (0, 0)
    | some s => (s, extendLoop ds thr s s 0)

/-- Columns with density meeting the threshold within rows
`[row_start, row_end]` inclusive (source: `find_dense_columns`, default
threshold 0.3). -/
def find_dense_columns (t : Table) (row_start row_end : Nat) (thr : ℚ) :
    List Nat :=
  if tableEmpty t ∨ row_start > row_end then []
  else
    let region := (t.rows.drop row_start).take (row_end + 1 - row_start)
    (List.range t.cols.length).filter fun j =>
      thr ≤ calculate_column_density (region.map (fun r => r.getD j Cell.empty))

/-- Membership of a character in the class `[\d.\-+]` (ASCII digits). -/
def isNumPatChar (c : Char) : Bool :=
  c.isDigit || c == '.' || c == '-' || c == '+'

/-- Python `re.match(r'^[\d\.\-\+]+$', s)`: a non-empty string of digits,
dots and signs. -/
def isPureNumeric (s : String) : Bool :=
  !s.toList.isEmpty && s.toList.all isNumPatChar

/-- Python `re.match(r'^[A-Z]{2,}-\d+$', s)`: at least two uppercase letters,
a hyphen, then at least one digit (ID patterns such as SAMP-001). -/
def isIdPat (s : String) : Bool :=
  let cs := s.toList
  let ups := cs.takeWhile (fun c => c.isUpper)
  let rest := cs.dropWhile (fun c => c.isUpper)
  ups.length ≥ 2 &&
    (match rest with
     | '-' :: ds => !ds.isEmpty && ds.all Char.isDigit
     | _ => false)

/-- A cell that looks like a header: non-empty, not a pure numeric/sign
pattern, and longer than one character (source: `_is_likely_header_cell`). -/
def isLikelyHeaderCell (v : Cell) : Bool :=
  if isEmptyCell v then false
  else
    let s := pyStrip (cellToStr v)
    if isPureNumeric s then false
    else decide (s.length > 1)

/-- A cell that looks like data: an ID pattern or a pure numeric pattern
(source: `_is_data_cell`). -/
def isDataCell (v : Cell) : Bool :=
  if isEmptyCell v then false
  else
    let s := pyStrip (cellToStr v)
    isIdPat s || isPureNumeric s

/-- Parse the non-empty cells of a column slice over `[start_row, end_row]`
as integers; `none` models the early `return False` on a parse failure
(source: the first loop of `_looks_like_row_number`). -/
def rowNumValues (col : List Cell) (start_row end_row : Nat) :
    Option (List Int) :=
  ((col.drop start_row).take (min (end_row + 1) col.length - start_row)).foldr
    (fun v acc =>
      if isEmptyCell v then acc
      else match cellToInt v, acc with
        | some n, some l => some (n :: l)
        | _, _ => none)
    (some [])

/-- Check whether a column looks like sequential row numbers: at least 3
parsed values, at least 70 percent of which equal `first + position`
(source: `_looks_like_row_number`). -/
def looksLikeRowNumber (col : List Cell) (start_row end_row : Nat) : Bool :=
  match rowNumValues col start_row end_row with
  | none => false
  | some values =>
      if values.length < 3 then false
      else
        match values with
        | [] => false
        | v0 :: _ =>
            let seqCount :=
              (List.range values.length).countP
                (fun i => values.getD i 0 == v0 + (i : Int))
            (7 : ℚ) / 10 ≤ (seqCount : ℚ) / (values.length : ℚ)

/-- Header-likeness score of one candidate row, or `none` when the row is
skipped (fewer than 2 non-empty cells, or more than 30 percent data-like
cells).  `next` is the following row if any (source: the loop body of
`detect_header_row`). -/
def headerScore (row : List Cell) (next : Option (List Cell)) : Option ℚ :=
  let nonEmpty := row.filter (fun v => !isEmptyCell v)
  if nonEmpty.length < 2 then none
  else
    let dataShare : ℚ :=
      (nonEmpty.countP isDataCell : ℚ) / (nonEmpty.length : ℚ)
    if dataShare > 3 / 10 then none
    else
      let headerShare : ℚ :=
        (nonEmpty.countP isLikelyHeaderCell : ℚ) / (nonEmpty.length : ℚ)
      let strVals := nonEmpty.map (fun v => lowerStr (pyStrip (cellToStr v)))
      let uniqShare : ℚ :=
        (strVals.dedup.length : ℚ) / (strVals.length : ℚ)
      let followBonus : ℚ :=
        match next with
        | none => 0
        | some nrow =>
            let nne := nrow.filter (fun v => !isEmptyCell v)
            if nne.isEmpty then 0
            else if (nne.countP isDataCell : ℚ) / (nne.length : ℚ) > 2 / 10
            then 4 / 10 else 0
      let densityBonus : ℚ :=
        if row.length = 0 then 0
        else (nonEmpty.length : ℚ) / (row.length : ℚ) * (2 / 10)
      some (headerShare * (4 / 10) + uniqShare * (2 / 10) + followBonus +
        densityBonus)

/-- Detect the most likely header row within `[search_start, search_end]`,
keeping the first row of maximal score (strict `>` comparison); `none` when
every candidate was skipped (source: `detect_header_row`). -/
def detect_header_row (t : Table) (search_start search_end : Nat) :
    Option Nat :=
  if tableEmpty t then none
  else
    let idxs := (List.range (min (search_end + 1) t.rows.length)).drop
      search_start
    (idxs.foldl
      (fun acc i =>
        match headerScore (t.rows.getD i []) (t.rows.get? (i + 1)) with
        | none => acc
        | some sc => if sc > acc.2 then (some i, sc) else acc)
      ((none : Option Nat), (-1 : ℚ))).1

/-- Filter one metadata/footer row: drop empty cells, and drop a leading
cell (column 0) that parses as an integer in `[0, 1000]` (a row-number
artifact).  Keeps original column positions. -/
def filterMetaRow (row : List Cell) : List (Nat × Cell) :=
  (row.enum.filter fun p => !isEmptyCell p.2).filterMap fun p =>
    if p.1 = 0 then
      match cellToInt p.2 with
      | some n => if 0 ≤ n ∧ n ≤ 1000 then none else some p
      | none => some p
    else some p

/-- Consecutive (key, value) pairs of a list, modelling the
`for i in range(0, len, 2)` pairing of metadata pattern 3. -/
def pairUp {α : Type} : List α → List (α × α)
  | a :: b :: rest => (a, b) :: pairUp rest
  | _ => []

/-- Insert a key/value pair with Python-dict semantics: an existing key keeps
its position and takes the new value, a new key appends. -/
def dictInsert (m : List (String × String)) (k v : String) :
    List (String × String) :=
  if m.any (fun p => p.1 == k) then
    m.map (fun p => if p.1 == k then (k, v) else p)
  else m ++ [(k, v)]

/-- Match `^([^:]+):\s*(.+)$` then `^([^=]+)=\s*(.+)$` against a single-cell
string, returning the trimmed key and value on success. -/
def splitKV (s : String) (sep : Char) : Option (String × String) :=
  let cs := s.toList
  let key := cs.takeWhile (fun c => c ≠ sep)
  match cs.dropWhile (fun c => c ≠ sep) with
  | [] => none
  | _ :: afterSep =>
      if key.isEmpty then none
      else
        let v := afterSep.dropWhile (fun c => c.isWhitespace)
        if v.isEmpty then none
        else some (pyStrip (String.mk key), pyStrip (String.mk v))

/-- Process one metadata row into the accumulating dict, trying the three
patterns of `extract_metadata` in order. -/
def metaRowStep (m : List (String × String)) (row : List Cell) :
    List (String × String) :=
  let nonEmpty := filterMetaRow row
  if nonEmpty.length = 0 then m
  else
    let pat1 : Option (String × String) :=
      match nonEmpty with
      | [(_, v)] =>
          let s := pyStrip (cellToStr v)
          (splitKV s ':').orElse (fun _ => splitKV s '=')
      | _ => none
    match pat1 with
    | some (k, v) => dictInsert m k v
    | none =>
      let pat2 : Option (String × String) :=
        match nonEmpty with
        | [(i1, v1), (i2, v2)] =>
            if (i2 : Int) - (i1 : Int) ≤ 2 ∧ (i1 : Int) - (i2 : Int) ≤ 2 then
              let k := pyStrip (cellToStr v1)
              if ¬isPureNumeric k ∧ k.length > 1 then
                some (k, pyStrip (cellToStr v2))
              else none
            else none
        | _ => none
      match pat2 with
      | some (k, v) => dictInsert m k v
      | none =>
          if nonEmpty.length ≥ 4 ∧ nonEmpty.length % 2 = 0 then
            (pairUp nonEmpty).foldl
              (fun acc chunk =>
                let k := pyStrip (cellToStr chunk.1.2)
                if ¬isPureNumeric k ∧ k.length > 1 then
                  dictInsert acc k (pyStrip (cellToStr chunk.2.2))
                else acc)
              m
          else m

/-- Extract key/value metadata from the rows strictly above `end_row`
(source: `extract_metadata`). -/
def extract_metadata (t : Table) (end_row : Nat) : List (String × String) :=
  (t.rows.take end_row).foldl metaRowStep []

/-- Extract footer strings from row `start_row` to the end: per row, after
the row-number filter, join the non-empty cells' strings with single spaces;
skip rows that become empty (source: `extract_footer`). -/
def extract_footer (t : Table) (start_row : Nat) : List String :=
  (t.rows.drop start_row).filterMap fun row =>
    let parts := (filterMetaRow row).map (fun p => pyStrip (cellToStr p.2))
    if parts.isEmpty then none else some (" ".intercalate parts)

/-- Result of core data extraction from a messy DataFrame
(source: the `ExtractedData` dataclass). -/
structure ExtractedData where
  core : Table
  metadata : List (String × String)
  header_row : Option Nat
  data_range : Nat × Nat
  footer : List String
  confidence : ℚ
  warnings : List String
deriving DecidableEq, Repr

/-- Confidence score of an extraction (source: `_calculate_confidence`):
start at 1, subtract 0.1 per warning, scale by average core row density when
the core is non-empty, adjust for the extracted share of rows, penalise
default-looking column names, clamp to [0, 1]. -/
def calculateConfidence (df core : Table) (header_row : Option Nat)
    (data_start data_end : Nat) (dense_cols : List Nat)
    (warnings : List String) : ℚ :=
  let score0 : ℚ := 1 - (warnings.length : ℚ) * (1 / 10)
  let score1 :=
    if ¬tableEmpty core then
      let avg := (core.rows.map calculate_row_density).sum /
        (core.rows.length : ℚ)
      score0 * (1 / 2 + avg * (1 / 2))
    else score0
  let score2 :=
    if 0 < df.rows.length then
      let share := (core.rows.length : ℚ) / (df.rows.length : ℚ)
      if share < 1 / 10 then score1 - 2 / 10
      else if share > 8 / 10 then score1 + 1 / 10
      else score1
    else score1
  let score3 :=
    if ¬core.cols.isEmpty then
      if ((core.cols.countP (fun c => pyStartsWith c "col_")) : ℚ) /
          (core.cols.length : ℚ) > 1 / 2
      then score2 - 15 / 100 else score2
    else score2
  max 0 (min 1 score3)

/-- Header-row choice of `extract_core_data` step 2: the detected header in
`[dense_start, min(dense_start+3, dense_end)]`, else the first dense row
with a warning flag. -/
def headerChoice (t : Table) (s e : Nat) : Nat × Bool :=
  match detect_header_row t s (min (s + 3) e) with
  | some h => (h, false)
  | none => (s, true)

/-- Dense-column choice of `extract_core_data` step 3, falling back to all
columns (with a warning flag) when none qualify. -/
def denseColsChoice (t : Table) (data_start e : Nat) : List Nat × Bool :=
  let dc := find_dense_columns t data_start e (3 / 10)
  if dc.isEmpty then (List.range t.cols.length, true) else (dc, false)

/-- Row-number column exclusion of `extract_core_data` step 4: drop the
first selected column when it looks like row numbers, re-falling back to all
columns except the first when that empties the selection. -/
def rowNumAdjust (t : Table) (dc : List Nat) (data_start e : Nat) :
    List Nat :=
  match dc with
  | [] => dc
  | j :: rest =>
      if looksLikeRowNumber (colAt t j) data_start e then
        if rest.isEmpty then (List.range t.cols.length).drop 1 else rest
      else j :: rest

/-- Column names of `extract_core_data` step 7: the header row's cells at
the selected columns, trimmed strings for non-empty cells, the positional
placeholder `col_i` for empty ones. -/
def headerNames (t : Table) (h : Nat) (dense_cols : List Nat) : List String :=
  (dense_cols.map (fun j => (t.rows.getD h []).getD j Cell.empty)).mapIdx
    (fun i v => if isEmptyCell v then "col_" ++ toString i
      else pyStrip (cellToStr v))

/-- The header row used on the full extraction path of `extract_core_data`
(detected, or the first dense row as fallback). -/
def mainHeader (t : Table) (s e : Nat) : Nat :=
  (headerChoice t s e).1

/-- The `data_start` of `extract_core_data` step 3, used for column
density and the row-number check. -/
def mainDataStart (t : Table) (s e : Nat) : Nat :=
  if mainHeader t s e < e then mainHeader t s e + 1 else mainHeader t s e

/-- The selected column positions after the dense-column fallback and the
row-number exclusion (`extract_core_data` steps 3 and 4). -/
def mainCols (t : Table) (s e : Nat) : List Nat :=
  rowNumAdjust t (denseColsChoice t (mainDataStart t s e) e).1
    (mainDataStart t s e) e

/-- The warnings accumulated on the full extraction path, in source order:
header fallback first, then the dense-column fallback. -/
def mainWarnings (t : Table) (s e : Nat) : List String :=
  (if (headerChoice t s e).2 then
      ["Could not detect header row; using first dense row"]
    else []) ++
  (if (denseColsChoice t (mainDataStart t s e) e).2 then
      ["No dense columns found; using all columns"]
    else [])

/-- The core table of `extract_core_data` step 7: rows
`[header_row + 1, dense_end]` sliced at the selected columns, named by the
header row's cells. -/
def mainCore (t : Table) (s e : Nat) : Table :=
  ⟨headerNames t (mainHeader t s e) (mainCols t s e),
   ((t.rows.drop (mainHeader t s e + 1)).take
       (e + 1 - (mainHeader t s e + 1))).map
     (fun r => (mainCols t s e).map (fun j => r.getD j Cell.empty))⟩

/-- The full extraction path of `extract_core_data` (steps 2 to 8), reached
for a non-empty frame whose dense region `(s, e)` was found. -/
def extractMain (t : Table) (s e : Nat) : ExtractedData :=
  { core := mainCore t s e
    metadata := extract_metadata t (mainHeader t s e)
    header_row := some (mainHeader t s e)
    data_range := (mainHeader t s e + 1, e)
    footer := if e + 1 < t.rows.length then extract_footer t (e + 1) else []
    confidence :=
      calculateConfidence t (mainCore t s e) (some (mainHeader t s e))
        (mainHeader t s e + 1) e (mainCols t s e) (mainWarnings t s e)
    warnings := mainWarnings t s e }

/-- Extract the core data table from a messy DataFrame
(source: `extract_core_data`, default density threshold 0.4). -/
def extract_core_data (t : Table) (thr : ℚ) : ExtractedData :=
  if tableEmpty t then
    { core := t, metadata := [], header_row := none, data_range := (0, 0),
      footer := [], confidence := 0,
      warnings := ["Empty DataFrame provided"] }
  else if (find_dense_region t thr).1 = 0 ∧ (find_dense_region t thr).2 = 0 ∧
      ¬thr ≤ calculate_row_density (t.rows.getD 0 []) then
    { core := t, metadata := [], header_row := none, data_range := (0, 0),
      footer := [], confidence := 3 / 10,
      warnings := ["No dense region found; returning entire DataFrame"] }
  else extractMain t (find_dense_region t thr).1 (find_dense_region t thr).2

/-- Membership in the Python regex class `\w`, modelled over ASCII:
`[A-Za-z0-9_]`. -/
def isWordChar (c : Char) : Bool :=
  c.isAlphanum || c == '_'

/-- Characters kept by `normalize_columns`: word characters, plus dash/dot
when preserved. -/
def keptChar (preserve_dashes preserve_dots : Bool) (c : Char) : Bool :=
  isWordChar c || (preserve_dashes && c == '-') || (preserve_dots && c == '.')

/-- Model of `re.sub(pattern, '_', s)` where the pattern matches one or more
non-kept characters: each maximal run of non-kept characters becomes a single
underscore.  The flag records whether the previous character was part of a
replaced run. -/
def subRunsGo (p : Char → Bool) : List Char → Bool → List Char
  | [], _ => []
  | c :: rest, inRun =>
      if p c then c :: subRunsGo p rest false
      else if inRun then subRunsGo p rest true
      else '_' :: subRunsGo p rest true

/-- Python `s.strip('_')`: remove all leading and trailing underscores. -/
def stripUnderscores (s : String) : String :=
  String.mk (((s.toList.dropWhile (· == '_')).reverse.dropWhile
    (· == '_')).reverse)

/-- Normalisation of a single column name (the per-name body of
`normalize_columns`): trim, lowercase unless preserved, replace runs of
non-kept characters with one underscore, strip edge underscores, fall back
to `"unnamed"`. -/
def normalizeName (preserve_case preserve_dashes preserve_dots : Bool)
    (col : String) : String :=
  let s1 := pyStrip col
  let s2 := if preserve_case then s1 else lowerStr s1
  let s3 := String.mk
    (subRunsGo (keptChar preserve_dashes preserve_dots) s2.toList false)
  let s4 := stripUnderscores s3
  if strIsEmpty s4 then "unnamed" else s4

/-- Lookup in the `seen` counter map of `normalize_columns`
(Python `col in seen` / `seen[col]`). -/
def seenGet (c : String) : List (String × Nat) → Option Nat
  | [] => none
  | q :: rest => if q.1 = c then some q.2 else seenGet c rest

/-- Update in the `seen` counter map (Python `seen[col] = v`). -/
def seenSet (c : String) (v : Nat) : List (String × Nat) →
    List (String × Nat)
  | [] => []
  | q :: rest =>
      if q.1 = c then (c, v) :: seenSet c v rest
      else q :: seenSet c v rest

/-- Duplicate-name disambiguation of `normalize_columns`: the `seen` counter
map gives the first occurrence its plain name and each later occurrence a
running `_k` suffix. -/
def dedupNames : List String → List (String × Nat) → List String
  | [], _ => []
  | c :: rest, seen =>
      match seenGet c seen with
      | some k =>
          (c ++ "_" ++ toString (k + 1)) ::
            dedupNames rest (seenSet c (k + 1) seen)
      | none => c :: dedupNames rest ((c, 0) :: seen)

/-- Normalize column names (source: `normalize_columns`; defaults are
`preserve_case=False`, `preserve_dashes=False`, `preserve_dots=False`). -/
def normalize_columns (df : Table) (filename : Option String)
    (preserve_case preserve_dashes preserve_dots : Bool) : Table :=
  ⟨dedupNames
      (df.cols.map (normalizeName preserve_case preserve_dashes
        preserve_dots)) [],
    df.rows⟩

/-- Pandas object dtype of a column, modelled as: the column holds at least
one Python string. -/
def colIsObject (col : List Cell) : Bool :=
  col.any fun c => match c with
    | Cell.str _ => true
    | _ => false

/-- Worker for Python `str.split()`: accumulate the current word, emit it at
each whitespace boundary, drop empty pieces. -/
def splitWSGo (cur : List Char) : List Char → List (List Char)
  | [] => if cur.isEmpty then [] else [cur.reverse]
  | c :: rest =>
      if c.isWhitespace then
        if cur.isEmpty then splitWSGo [] rest
        else cur.reverse :: splitWSGo [] rest
      else splitWSGo (c :: cur) rest

/-- Python `' '.join(x.split())`: split on whitespace runs, dropping empty
pieces, and re-join with single spaces. -/
def collapseWS (s : String) : String :=
  " ".intercalate ((splitWSGo [] s.toList).map String.mk)

/-- Strip whitespace from string cells of object columns
(source: `strip_whitespace`; default `normalize_inner=False`). -/
def strip_whitespace (df : Table) (filename : Option String)
    (normalize_inner : Bool) : Table :=
  let objCols := (List.range df.cols.length).map
    (fun j => colIsObject (colAt df j))
  ⟨df.cols,
    df.rows.map fun r => r.mapIdx fun j c =>
      if objCols.getD j false then
        match c with
        | Cell.str s =>
            Cell.str (if normalize_inner then collapseWS s else pyStrip s)
        | other => other
      else c⟩

/-- Remove rows in which every cell is empty (source: `drop_empty_rows`;
`reset_index(drop=True)` is the identity in this positional model). -/
def drop_empty_rows (df : Table) (filename : Option String) : Table :=
  ⟨df.cols, df.rows.filter fun r => r.any (fun v => !isEmptyCell v)⟩

/-- Remove columns in which every cell is empty (source: `drop_empty_cols`;
column selection is positional in this model). -/
def drop_empty_cols (df : Table) (filename : Option String) : Table :=
  let keep := (List.range df.cols.length).filter
    (fun j => (colAt df j).any (fun v => !isEmptyCell v))
  ⟨keep.map (fun j => df.cols.getD j ""),
    df.rows.map fun r => keep.map (fun j => r.getD j Cell.empty)⟩

/-- The fixed NA token set of `standardize_na`. -/
def naTokens : List String :=
  ["n/a", "na", "N/A", "NA", "-", "null", "NULL", "None", "none", ""]

/-- Convert common NA string representations to the empty marker
(source: `standardize_na`). -/
def standardize_na (df : Table) (filename : Option String) : Table :=
  let objCols := (List.range df.cols.length).map
    (fun j => colIsObject (colAt df j))
  ⟨df.cols,
    df.rows.map fun r => r.mapIdx fun j c =>
      if objCols.getD j false then
        match c with
        | Cell.str s => if naTokens.contains (pyStrip s) then Cell.empty
            else Cell.str s
        | other => other
      else c⟩

/-- First-occurrence row deduplication (the scan behind
`df.drop_duplicates()`). -/
def dedupRows : List (List Cell) → List (List Cell) → List (List Cell)
  | [], _ => []
  | r :: rest, seen =>
      if seen.contains r then dedupRows rest seen
      else r :: dedupRows rest (r :: seen)

/-- Remove exact duplicate rows, keeping first occurrences
(source: `deduplicate`). -/
def deduplicate (df : Table) (filename : Option String) : Table :=
  ⟨df.cols, dedupRows df.rows []⟩

/-- Pandas `pd.to_numeric(value, errors='coerce')` cellwise: numbers pass
through, strings parse as floats, everything else (and parse failures)
becomes NaN. -/
def coerceNum : Cell → Option ℚ
  | Cell.num q => some q
  | Cell.str s => parseFloat s
  | _ => none

/-- Syntactic check for an ISO `YYYY-MM-DD` date string with a plausible
month and day.  Other datetime formats Python would also accept are outside
the modelled scope; the pipeline claims only exercise ISO-or-failing
strings. -/
def wellFormedDate (s : String) : Bool :=
  match s.toList with
  | [y1, y2, y3, y4, '-', m1, m2, '-', d1, d2] =>
      [y1, y2, y3, y4, m1, m2, d1, d2].all Char.isDigit &&
        (let m := (m1.toNat - 48) * 10 + (m2.toNat - 48)
         let d := (d1.toNat - 48) * 10 + (d2.toNat - 48)
         decide (1 ≤ m) && decide (m ≤ 12) && decide (1 ≤ d) &&
           decide (d ≤ 31))
  | _ => false

/-- Pandas `pd.to_datetime(value, errors='coerce')` cellwise: NaN stays out,
numbers read as epoch offsets (display abstracted), date strings parse,
timestamps pass through. -/
def coerceDate : Cell → Option Cell
  | Cell.empty => none
  | Cell.num q => some (Cell.date ("epoch " ++ ratToStr q))
  | Cell.str s =>
      if wellFormedDate (pyStrip s) then
        some (Cell.date (pyStrip s ++ " 00:00:00"))
      else none
  | Cell.date s => some (Cell.date s)

/-- Per-column conversion decision of `infer_types`. -/
inductive ColConv where
  | keep : ColConv
  | toNum : ColConv
  | toDate : ColConv
deriving DecidableEq, Repr

/-- Share of cells of a column that coerce to numeric (the
`valid_ratio` of the numeric attempt; 0 for an empty column). -/
def numOkShare (col : List Cell) : ℚ :=
  if col.length = 0 then 0
  else ((col.countP (fun c => (coerceNum c).isSome)) : ℚ) / (col.length : ℚ)

/-- Share of cells of a column that coerce to datetime (the
`valid_ratio` of the datetime attempt; 0 for an empty column). -/
def dateOkShare (col : List Cell) : ℚ :=
  if col.length = 0 then 0
  else ((col.countP (fun c => (coerceDate c).isSome)) : ℚ) / (col.length : ℚ)

/-- Conversion decision of `infer_types` for one column: only object
columns are touched; numeric wins at a 50 percent success share of all
values, then datetime at the same threshold, else the column is kept. -/
def convDecision (col : List Cell) : ColConv :=
  if ¬colIsObject col then ColConv.keep
  else if 1 / 2 ≤ numOkShare col then ColConv.toNum
  else if 1 / 2 ≤ dateOkShare col then ColConv.toDate
  else ColConv.keep

/-- Apply a column conversion decision to one cell; coercion failures
become the empty marker. -/
def convCell : ColConv → Cell → Cell
  | ColConv.keep, c => c
  | ColConv.toNum, c =>
      match coerceNum c with
      | some q => Cell.num q
      | none => Cell.empty
  | ColConv.toDate, c => (coerceDate c).getD Cell.empty

/-- The per-column conversion decisions of `infer_types`, in column order. -/
def inferDecs (df : Table) : List ColConv :=
  (List.range df.cols.length).map (fun j => convDecision (colAt df j))

/-- Infer and convert column types (source: `infer_types`). -/
def infer_types (df : Table) (filename : Option String) : Table :=
  ⟨df.cols,
    df.rows.map fun r => r.mapIdx fun j c =>
      convCell ((inferDecs df).getD j ColConv.keep) c⟩

/-- A cleaner callable `(df, filename) -> df`; a raised exception is an
`error`. -/
def Cleaner : Type := Table → Option String → Except String Table

/-- Lift a total table transform to a cleaner. -/
def liftCleaner (f : Table → Option String → Table) : Cleaner :=
  fun t s => Except.ok (f t s)

/-- The `minimal` preset list. -/
def presetMinimal : List Cleaner :=
  [liftCleaner (fun t f => normalize_columns t f false false false),
   liftCleaner (fun t f => strip_whitespace t f false)]

/-- The `standard` preset list. -/
def presetStandard : List Cleaner :=
  presetMinimal ++
    [liftCleaner drop_empty_rows, liftCleaner standardize_na]

/-- The `aggressive` preset list. -/
def presetAggressive : List Cleaner :=
  [liftCleaner (fun t f => normalize_columns t f false false false),
   liftCleaner (fun t f => strip_whitespace t f false),
   liftCleaner drop_empty_rows,
   liftCleaner drop_empty_cols,
   liftCleaner standardize_na,
   liftCleaner deduplicate,
   liftCleaner infer_types]

/-- The named preset registry (source: `CLEANING_PRESETS`); `none` models a
missing key. -/
def CLEANING_PRESETS (name : String) : Option (List Cleaner) :=
  if name = "none" then some []
  else if name = "minimal" then some presetMinimal
  else if name = "standard" then some presetStandard
  else if name = "aggressive" then some presetAggressive
  else none

/-- Apply a list of cleaners in order, each consuming the previous output;
a raised exception propagates (source: `apply_cleaners`). -/
def apply_cleaners (df : Table) (cleaners : List Cleaner)
    (filename : Option String) : Except String Table :=
  cleaners.foldlM (fun acc c => c acc filename) df

/-- Clean a DataFrame by preset name, cleaner list, or single cleaner
(source: `clean_dataframe`).  The checks are `is not None` checks, in source
order: single cleaner first, then the list, then the preset, then the
`standard` default; an unknown preset name is a raised `ValueError`. -/
def clean_dataframe (df : Table) (preset : Option String)
    (cleaners : Option (List Cleaner)) (cleaner : Option Cleaner)
    (filename : Option String) : Except String Table :=
  match cleaner with
  | some c => c df filename
  | none =>
    match cleaners with
    | some cs => apply_cleaners df cs filename
    | none =>
      match preset with
      | some p =>
          match CLEANING_PRESETS p with
          | some cs => apply_cleaners df cs filename
          | none => Except.error ("Unknown preset: " ++ p)
      | none => apply_cleaners df presetStandard filename

/-- Python truthiness of an optional list: `None` and `[]` are falsy. -/
def truthyOptList {α : Type} : Option (List α) → Bool
  | none => false
  | some [] => false
  | some (_ :: _) => true

/-- Assoc-list lookup modelling Python `dict[key]` /
`key in dict`. -/
def alookup {β : Type} (k : String) : List (String × β) → Option β
  | [] => none
  | p :: rest => if p.1 == k then some p.2 else alookup k rest

/-- Pandas `frame[name] = value` with a constant value: overwrite the column
when the name exists, else append it on the right, filling every row. -/
def setConstCol (t : Table) (name : String) (c : Cell) : Table :=
  match t.cols.findIdx? (fun n => n == name) with
  | some j => ⟨t.cols, t.rows.map (fun r => r.set j c)⟩
  | none => ⟨t.cols ++ [name], t.rows.map (fun r => r ++ [c])⟩

/-- Metadata-column injection of `combine_dataframes`: for each requested
key, a `_key` column filled with that table's metadata value when present,
else NaN. -/
def addMetaCols (frame : Table) (keys : List String)
    (fm : List (String × String)) : Table :=
  keys.foldl
    (fun t k =>
      setConstCol t ("_" ++ k)
        (match alookup k fm with
         | some v => Cell.str v
         | none => Cell.empty))
    frame

/-- Pandas `pd.concat(frames)`: the column union in order of first
appearance; rows stack in frame order, missing columns fill with NaN.
(`ignore_index` only affects unmodelled row index labels.) -/
def concatFrames (fs : List Table) : Table :=
  let ucols := fs.foldl
    (fun acc f => acc ++ f.cols.filter (fun c => !acc.contains c)) []
  ⟨ucols,
    (fs.map fun f =>
        f.rows.map fun r =>
          ucols.map fun c =>
            match f.cols.findIdx? (fun n => n == c) with
            | some j => r.getD j Cell.empty
            | none => Cell.empty).flatten⟩

/-- Combine multiple named DataFrames into one
(source: `combine_dataframes`).  Note the guard
`if include_metadata and metadata and filename in metadata`: when no
metadata map is supplied the requested metadata columns are silently
skipped. -/
def combine_dataframes (data : List (String × Table))
    (add_source ignore_index : Bool)
    (metadata : Option (List (String × List (String × String))))
    (include_metadata : Option (List String)) : Table :=
  if data.isEmpty then ⟨[], []⟩
  else
    concatFrames (data.map fun kv =>
      let f1 := if add_source then setConstCol kv.2 "_source" (Cell.str kv.1)
        else kv.2
      if truthyOptList include_metadata then
        match metadata with
        | some m =>
            match alookup kv.1 m with
            | some fm => addMetaCols f1 (include_metadata.getD []) fm
            | none => f1
        | none => f1
      else f1)

/-- Python truthiness of an optional string: `None` and `""` are falsy. -/
def truthyOptStr : Option String → Bool
  | none => false
  | some s => !strIsEmpty s

/-- The cleaning-stage dispatch inside `FileDrop._add_widget.on_data_ready`
(filedrop.py lines 124-132), with Python truthiness: a non-empty cleaner
list wins, then a single cleaner, then a non-`'none'` preset via
`clean_dataframe`; otherwise the table passes through. -/
def resolveCleaning (cleanersOpt : Option (List Cleaner))
    (cleanerOpt : Option Cleaner) (presetOpt : Option String) (df : Table)
    (filename : Option String) : Except String Table :=
  if truthyOptList cleanersOpt then
    apply_cleaners df (cleanersOpt.getD []) filename
  else
    match cleanerOpt with
    | some c => c df filename
    | none =>
        if truthyOptStr presetOpt ∧ presetOpt ≠ some "none" then
          clean_dataframe df presetOpt none none filename
        else Except.ok df

/-- Per-table processing of `on_data_ready`: optional core extraction
(default threshold 0.4), then the cleaning stage wrapped in the per-table
`try/except` — a cleaning failure leaves the table as it came out of the
prior stage. -/
def processOne (extractCore : Bool) (cleanersOpt : Option (List Cleaner))
    (cleanerOpt : Option Cleaner) (presetOpt : Option String)
    (filename : Option String) (df : Table) : Table :=
  let df1 := if extractCore then (extract_core_data df (2 / 5)).core else df
  match resolveCleaning cleanersOpt cleanerOpt presetOpt df1 filename with
  | Except.ok d => d
  | Except.error _ => df1

/-- The `for key, df in data.items()` batch loop of `on_data_ready`,
producing `processed_data`. -/
def processBatch (extractCore : Bool) (cleanersOpt : Option (List Cleaner))
    (cleanerOpt : Option Cleaner) (presetOpt : Option String)
    (filename : Option String) (data : List (String × Table)) :
    List (String × Table) :=
  data.map fun kv =>
    (kv.1, processOne extractCore cleanersOpt cleanerOpt presetOpt filename
      kv.2)

/-- The per-label combination entry point `FileDrop.combine`
(filedrop.py lines 459-484): label-state is passed as arguments.  Errors
model raised `ValueError`s; the `include_metadata` precondition check only
fires when `extract_core` was not enabled. -/
def fileDropCombine (extractCore : Bool)
    (extracted : Option (List (String × List (String × String))))
    (data : List (String × Table))
    (combiner : Option (List (String × Table) → Table))
    (add_source ignore_index : Bool)
    (include_metadata : Option (List String)) : Except String Table :=
  if data.isEmpty then Except.error "No data"
  else
    match combiner with
    | some f => Except.ok (f data)
    | none =>
        if truthyOptList include_metadata ∧ extractCore = false then
          Except.error "include_metadata requires extract_core=True"
        else
          let metadata :=
            if truthyOptList include_metadata then extracted else none
          Except.ok
            (combine_dataframes data add_source ignore_index metadata
              include_metadata)

/-- Helper: `getD` through `take`. -/
theorem getD_take {α : Type} (l : List α) (n j : Nat) (d : α) :
    (l.take n).getD j d = if j < n then l.getD j d else d := by
  rw [List.getD_eq_getElem?_getD, List.getElem?_take]
  split
  · rw [List.getD_eq_getElem?_getD]
  · rfl

/-- Helper: `getD` through `drop`. -/
theorem getD_drop {α : Type} (l : List α) (s j : Nat) (d : α) :
    (l.drop s).getD j d = l.getD (s + j) d := by
  rw [List.getD_eq_getElem?_getD, List.getElem?_drop,
    ← List.getD_eq_getElem?_getD]

/-- Helper: the density list reads back row densities, with the empty-row
default agreeing out of range. -/
theorem densList_getD (t : Table) (j : Nat) :
    (densList t).getD j 0 = calculate_row_density (t.rows.getD j []) := by
  rw [densList, List.getD_eq_getElem?_getD, List.getElem?_map]
  rw [List.getD_eq_getElem?_getD]
  cases h : t.rows[j]? with
  | none => simp [calculate_row_density]
  | some r => simp

/-- Row densities are nonnegative. -/
theorem row_density_nonneg (row : List Cell) :
    0 ≤ calculate_row_density row := by
  unfold calculate_row_density
  split
  · exact le_refl 0
  · positivity

/-- A run of three consecutive rows below the threshold starting at `j`. -/
def TripleMiss (ds : List ℚ) (thr : ℚ) (j : Nat) : Prop :=
  ds.getD j 0 < thr ∧ ds.getD (j + 1) 0 < thr ∧ ds.getD (j + 2) 0 < thr

/-- No run of three consecutive below-threshold rows lies strictly inside
`[s, i)`. -/
def NoTripleBefore (ds : List ℚ) (thr : ℚ) (s i : Nat) : Prop :=
  ∀ j < i, s ≤ j → j + 2 < i → ¬TripleMiss ds thr j

/-- Row `k` qualifies as the region end reachable from `s`: it meets the
threshold and no run of 3 consecutive below-threshold rows precedes it
(this is the claim's description of the gap-tolerant forward extension). -/
def ReachEnd (ds : List ℚ) (thr : ℚ) (s k : Nat) : Prop :=
  s ≤ k ∧ k < ds.length ∧ thr ≤ ds.getD k 0 ∧ NoTripleBefore ds thr s k

instance (ds : List ℚ) (thr : ℚ) (j : Nat) :
    Decidable (TripleMiss ds thr j) := by
  unfold TripleMiss; infer_instance

instance (ds : List ℚ) (thr : ℚ) (s i : Nat) :
    Decidable (NoTripleBefore ds thr s i) := by
  unfold NoTripleBefore; infer_instance

instance (ds : List ℚ) (thr : ℚ) (s k : Nat) :
    Decidable (ReachEnd ds thr s k) := by
  unfold ReachEnd; infer_instance

/-- Antitonicity of `NoTripleBefore` in the right endpoint. -/
theorem noTripleBefore_mono {ds : List ℚ} {thr : ℚ} {s i i' : Nat}
    (h : i ≤ i') (hnt : NoTripleBefore ds thr s i') :
    NoTripleBefore ds thr s i := by
  intro j hj hsj hj2
  exact hnt j (by omega) hsj (by omega)

/-- Characterisation of the first-dense-row scan. -/
theorem firstHit_eq_some_iff (thr : ℚ) (ds : List ℚ) (s : Nat) :
    firstHit thr ds = some s ↔
      s < ds.length ∧ thr ≤ ds.getD s 0 ∧ ∀ j < s, ds.getD j 0 < thr := by
  induction ds generalizing s with
  | nil => simp [firstHit]
  | cons d rest ih =>
      rw [firstHit]
      by_cases hd : thr ≤ d
      · rw [if_pos hd]
        constructor
        · intro h
          obtain rfl : s = 0 := by injection h with h; omega
          refine ⟨Nat.succ_pos _, by simpa using hd, ?_⟩
          intro j hj; omega
        · rintro ⟨h1, h2, h3⟩
          cases s with
          | zero => rfl
          | succ s2 =>
              have := h3 0 (Nat.succ_pos _)
              simp only [List.getD_cons_zero] at this
              exact absurd hd (not_le.mpr this)
      · rw [if_neg hd]
        have hd' : d < thr := not_le.mp hd
        cases s with
        | zero =>
            simp only [List.getD_cons_zero]
            constructor
            · intro h
              cases hfh : firstHit thr rest with
              | none => rw [hfh] at h; exact absurd h (by simp)
              | some a => rw [hfh] at h; simp at h
            · rintro ⟨_, h2, _⟩
              exact absurd h2 (not_le.mpr hd')
        | succ s2 =>
            constructor
            · intro h
              have ha : firstHit thr rest = some s2 := by
                cases hfh : firstHit thr rest with
                | none => rw [hfh] at h; exact absurd h (by simp)
                | some a =>
                    rw [hfh] at h
                    simp only [Option.map_some'] at h
                    injection h with h
                    obtain rfl : a = s2 := by omega
                    rfl
              rcases (ih s2).mp ha with ⟨h1, h2, h3⟩
              refine ⟨by simpa using h1, by simpa using h2, ?_⟩
              intro j hj
              cases j with
              | zero => simpa using hd'
              | succ j2 => simpa using h3 j2 (by omega)
            · rintro ⟨h1, h2, h3⟩
              have hrest : firstHit thr rest = some s2 := by
                refine (ih s2).mpr ⟨by simpa using h1, by simpa using h2, ?_⟩
                intro j hj
                have := h3 (j + 1) (by omega)
                simpa using this
              rw [hrest]; rfl

/-- Invariant-carrying specification of the forward-extension loop: it
returns the greatest reachable end. -/
theorem extendLoop_max (ds : List ℚ) (thr : ℚ) (s : Nat) :
    ∀ n i e gap, ds.length - i ≤ n →
      s ≤ e → e < i → e < ds.length → thr ≤ ds.getD e 0 →
      (∀ k, e < k → k < i → ds.getD k 0 < thr) →
      gap = i - e - 1 → gap ≤ 2 → NoTripleBefore ds thr s i →
      ReachEnd ds thr s (extendLoop ds thr i e gap) ∧
        ∀ k, ReachEnd ds thr s k → k ≤ extendLoop ds thr i e gap := by
  intro n
  induction n with
  | zero =>
      intro i e gap hn hse hei helen hhite hmiss hgap hgap2 hnt
      have hilen : ds.length ≤ i := by omega
      rw [extendLoop_eq, if_neg (by omega : ¬i < ds.length)]
      refine ⟨⟨hse, helen, hhite, noTripleBefore_mono (by omega) hnt⟩, ?_⟩
      rintro k ⟨hk1, hk2, hk3, hk4⟩
      by_contra hlt
      exact absurd hk3 (not_le.mpr (hmiss k (by omega) (by omega)))
  | succ n ih =>
      intro i e gap hn hse hei helen hhite hmiss hgap hgap2 hnt
      rw [extendLoop_eq]
      by_cases hi : i < ds.length
      · rw [if_pos hi]
        by_cases hhit : thr ≤ ds.getD i 0
        · rw [if_pos hhit]
          refine ih (i + 1) i 0 (by omega) (by omega) (by omega) hi hhit
            (by intro k h1 h2; omega) (by omega) (by omega) ?_
          intro j hj hsj hj2 htriple
          by_cases hcase : j + 2 < i
          · exact hnt j (by omega) hsj (by omega) htriple
          · obtain ⟨m1, m2, m3⟩ := htriple
            have hji : j + 2 = i := by omega
            rw [hji] at m3
            exact absurd hhit (not_le.mpr m3)
        · rw [if_neg hhit]
          have hi' : ds.getD i 0 < thr := not_le.mp hhit
          by_cases hbreak : gap + 1 > 2
          · rw [if_pos hbreak]
            have hgap2' : gap = 2 := by omega
            have hie : i = e + 3 := by omega
            refine ⟨⟨hse, helen, hhite,
              noTripleBefore_mono (by omega) hnt⟩, ?_⟩
            rintro k ⟨hk1, hk2, hk3, hk4⟩
            by_contra hlt
            have hek : e < k := by omega
            rcases Nat.lt_trichotomy k i with hki | hki | hki
            · exact absurd hk3 (not_le.mpr (hmiss k hek hki))
            · subst hki; exact absurd hk3 (not_le.mpr hi')
            · refine hk4 (e + 1) (by omega) (by omega) (by omega) ?_
              refine ⟨hmiss (e + 1) (by omega) (by omega), ?_, ?_⟩
              · exact hmiss (e + 2) (by omega) (by omega)
              · have : e + 1 + 2 = i := by omega
                rw [this]; exact hi'
          · rw [if_neg hbreak]
            refine ih (i + 1) e (gap + 1) (by omega) hse (by omega) helen
              hhite ?_ (by omega) (by omega) ?_
            · intro k h1 h2
              rcases Nat.lt_trichotomy k i with hki | hki | hki
              · exact hmiss k h1 hki
              · subst hki; exact hi'
              · omega
            · intro j hj hsj hj2 htriple
              by_cases hcase : j + 2 < i
              · exact hnt j (by omega) hsj (by omega) htriple
              · obtain ⟨m1, m2, m3⟩ := htriple
                have hji : j + 2 = i := by omega
                have hegap : e = i - 2 ∨ e = i - 1 := by omega
                rcases hegap with he | he
                · have hje : j = e := by omega
                  rw [hje] at m1
                  exact absurd hhite (not_le.mpr m1)
                · have hje : j + 1 = e := by omega
                  rw [hje] at m2
                  exact absurd hhite (not_le.mpr m2)
      · rw [if_neg hi]
        refine ⟨⟨hse, helen, hhite, noTripleBefore_mono (by omega) hnt⟩, ?_⟩
        rintro k ⟨hk1, hk2, hk3, hk4⟩
        by_contra hlt
        exact absurd hk3 (not_le.mpr (hmiss k (by omega) (by omega)))

/-- Entry form of the loop specification, in the state `extract_core_data`
calls it with: at the first dense row. -/
theorem extendLoop_entry (ds : List ℚ) (thr : ℚ) (s : Nat)
    (hs : s < ds.length) (hhit : thr ≤ ds.getD s 0) :
    ReachEnd ds thr s (extendLoop ds thr s s 0) ∧
      ∀ k, ReachEnd ds thr s k → k ≤ extendLoop ds thr s s 0 := by
  rw [extendLoop_eq, if_pos hs, if_pos hhit]
  refine extendLoop_max ds thr s ds.length (s + 1) s 0 (by omega) le_rfl
    (by omega) hs hhit (by intro k h1 h2; omega) (by omega) (by omega) ?_
  intro j hj hsj hj2
  exact absurd hj2 (by omega)

/-- Helper: a non-empty frame has non-empty rows and columns. -/
theorem tableEmpty_false {t : Table} (h : tableEmpty t = false) :
    t.rows ≠ [] ∧ t.cols ≠ [] := by
  unfold tableEmpty at h
  rcases Bool.or_eq_false_iff.mp h with ⟨h1, h2⟩
  exact ⟨by simpa using h1, by simpa using h2⟩

/-- The dense-region result when a first dense row exists: the start is that
row, the end is reachable, and no reachable row lies beyond it. -/
theorem find_dense_region_hit (t : Table) (thr : ℚ) (s : Nat)
    (hne : tableEmpty t = false)
    (hfh : firstHit thr (densList t) = some s) :
    (find_dense_region t thr).1 = s ∧
      ReachEnd (densList t) thr s (find_dense_region t thr).2 ∧
      ∀ k, ReachEnd (densList t) thr s k →
        k ≤ (find_dense_region t thr).2 := by
  rcases (firstHit_eq_some_iff thr (densList t) s).mp hfh with ⟨h1, h2, _⟩
  have hentry := extendLoop_entry (densList t) thr s h1 h2
  simp only [find_dense_region, hne, Bool.false_eq_true, if_false, hfh]
  exact ⟨trivial, hentry.1, hentry.2⟩

/-- Helper: when no row meets the threshold the scan finds nothing. -/
theorem firstHit_none_of_all_miss (t : Table) (thr : ℚ)
    (hmiss : ∀ j < t.rows.length,
      calculate_row_density (t.rows.getD j []) < thr) :
    firstHit thr (densList t) = none := by
  cases hfh : firstHit thr (densList t) with
  | none => rfl
  | some s =>
      rcases (firstHit_eq_some_iff thr (densList t) s).mp hfh with ⟨h1, h2, _⟩
      rw [densList_getD] at h2
      rw [densList, List.length_map] at h1
      exact absurd h2 (not_le.mpr (hmiss s h1))

/-- Helper: hypotheses pinning the first dense row force the scan result. -/
theorem firstHit_some_of_first (t : Table) (thr : ℚ) (s : Nat)
    (hne : tableEmpty t = false)
    (hhit : thr ≤ calculate_row_density (t.rows.getD s []))
    (hbefore : ∀ j < s, calculate_row_density (t.rows.getD j []) < thr) :
    firstHit thr (densList t) = some s := by
  have hrows := (tableEmpty_false hne).1
  have hlen : 0 < t.rows.length := List.length_pos.mpr hrows
  have hs : s < t.rows.length := by
    by_contra hge
    have hsl : t.rows.length ≤ s := by omega
    have : t.rows.getD s [] = [] := by
      rw [List.getD_eq_getElem?_getD, List.getElem?_eq_none hsl]; rfl
    rw [this] at hhit
    have h0 : calculate_row_density ([] : List Cell) = 0 := by
      simp [calculate_row_density]
    rw [h0] at hhit
    have h00 : (0 : Nat) < s := by omega
    have := hbefore 0 h00
    exact absurd hhit (not_le.mpr (lt_of_le_of_lt
      (row_density_nonneg (t.rows.getD 0 [])) this))
  refine (firstHit_eq_some_iff thr (densList t) s).mpr ?_
  refine ⟨by rw [densList, List.length_map]; exact hs, ?_, ?_⟩
  · rw [densList_getD]; exact hhit
  · intro j hj; rw [densList_getD]; exact hbefore j hj

/-- C6: `find_dense_region` returns `(0, 0)` on an empty frame or when no
row meets the threshold; otherwise its start is the first row whose density
meets the threshold, its end meets the threshold and is reachable from the
start tolerating at most 2 consecutive below-threshold rows (a run of 3 or
more terminates the region), and no row reachable that way lies beyond the
returned end. -/
theorem find_dense_region_spec (t : Table) (thr : ℚ) :
    (tableEmpty t = true → find_dense_region t thr = (0, 0)) ∧
    ((∀ j < t.rows.length,
        calculate_row_density (t.rows.getD j []) < thr) →
      find_dense_region t thr = (0, 0)) ∧
    (∀ s, tableEmpty t = false →
      thr ≤ calculate_row_density (t.rows.getD s []) →
      (∀ j < s, calculate_row_density (t.rows.getD j []) < thr) →
      (find_dense_region t thr).1 = s ∧
        ReachEnd (densList t) thr s (find_dense_region t thr).2 ∧
        ∀ k, ReachEnd (densList t) thr s k →
          k ≤ (find_dense_region t thr).2) := by
  refine ⟨?_, ?_, ?_⟩
  · intro h; simp [find_dense_region, h]
  · intro hmiss
    have hfh := firstHit_none_of_all_miss t thr hmiss
    cases hemp : tableEmpty t with
    | true => simp [find_dense_region, hemp]
    | false =>
        simp only [find_dense_region, hemp, Bool.false_eq_true, if_false,
          hfh]
  · intro s hne hhit hbefore
    exact find_dense_region_hit t thr s hne
      (firstHit_some_of_first t thr s hne hhit hbefore)

/-- Helper: densities of a row slice are the sliced densities. -/
theorem densList_slice (t : Table) (s n : Nat) :
    densList ⟨t.cols, (t.rows.drop s).take n⟩ =
      ((densList t).drop s).take n := by
  unfold densList
  rw [List.map_take, List.map_drop]

/-- C7: `find_dense_region` is idempotent — re-running it on the sliced
`[start, end]` sub-frame at the same threshold yields `(0, end - start)`. -/
theorem find_dense_region_idem (t : Table) (thr : ℚ) :
    find_dense_region
        ⟨t.cols,
         (t.rows.drop (find_dense_region t thr).1).take
           ((find_dense_region t thr).2 + 1 - (find_dense_region t thr).1)⟩
        thr
      = (0, (find_dense_region t thr).2 - (find_dense_region t thr).1) := by
  cases hemp : tableEmpty t with
  | true =>
      have hfd : find_dense_region t thr = (0, 0) := by
        simp [find_dense_region, hemp]
      rw [hfd]
      unfold tableEmpty at hemp
      rcases Bool.or_eq_true_iff.mp hemp with h | h
      · have : t.rows = [] := by simpa using h
        simp [find_dense_region, tableEmpty, this]
      · have : t.cols = [] := by simpa using h
        simp [find_dense_region, tableEmpty, this]
  | false =>
      have hcols := (tableEmpty_false hemp).2
      have hrows := (tableEmpty_false hemp).1
      cases hfh : firstHit thr (densList t) with
      | none =>
          have hfd : find_dense_region t thr = (0, 0) := by
            simp only [find_dense_region, hemp, Bool.false_eq_true, if_false,
              hfh]
          rw [hfd]
          have hmiss0 : calculate_row_density (t.rows.getD 0 []) < thr := by
            by_contra hge
            have := firstHit_some_of_first t thr 0 hemp (not_lt.mp hge)
              (by intro j hj; omega)
            rw [hfh] at this; exact absurd this (by simp)
          have hsub : firstHit thr
              (densList ⟨t.cols, (t.rows.drop 0).take 1⟩) = none := by
            apply firstHit_none_of_all_miss
            intro j hj
            simp only [List.drop_zero] at hj ⊢
            have hj1 : j = 0 := by
              have := List.length_take_le 1 t.rows
              omega
            subst hj1
            have : (t.rows.take 1).getD 0 [] = t.rows.getD 0 [] := by
              rw [getD_take]; simp
            rw [this]; exact hmiss0
          have hsubne : tableEmpty ⟨t.cols, (t.rows.drop 0).take 1⟩
              = false := by
            unfold tableEmpty
            simp only [List.drop_zero]
            have hlen1 : (t.rows.take 1).length = 1 := by
              rw [List.length_take]
              have hpos : 0 < t.rows.length := List.length_pos.mpr hrows
              omega
            have h1 : (t.rows.take 1).isEmpty = false := by
              cases hx : t.rows.take 1 with
              | nil => rw [hx] at hlen1; simp at hlen1
              | cons a l => rfl
            have h2 : t.cols.isEmpty = false := by
              cases hx : t.cols with
              | nil => exact absurd hx hcols
              | cons a l => rfl
            rw [h1, h2]
            rfl
          simp only [find_dense_region, hsubne, Bool.false_eq_true,
            if_false, hsub]
      | some s =>
          obtain ⟨hs1, hre, hmax⟩ := find_dense_region_hit t thr s hemp hfh
          obtain ⟨hEs, hElen, hEhit, hEnt⟩ := hre
          have hshit : thr ≤ (densList t).getD s 0 :=
            ((firstHit_eq_some_iff thr (densList t) s).mp hfh).2.1
          set E := (find_dense_region t thr).2 with hE
          have hslen : s < (densList t).length :=
            ((firstHit_eq_some_iff thr (densList t) s).mp hfh).1
          have hdlen : (densList t).length = t.rows.length := by
            rw [densList, List.length_map]
          -- the sliced sub-frame
          rw [hs1]
          set n := E + 1 - s with hn
          set sub : Table := ⟨t.cols, (t.rows.drop s).take n⟩ with hsubdef
          have hsubdens : densList sub = ((densList t).drop s).take n :=
            densList_slice t s n
          have hsublen : (densList sub).length = min n ((densList t).length - s) := by
            rw [hsubdens, List.length_take, List.length_drop]
          have hsubgetD : ∀ j, j < n →
              (densList sub).getD j 0 = (densList t).getD (s + j) 0 := by
            intro j hj
            rw [hsubdens, getD_take, if_pos hj, getD_drop]
          have hsubne : tableEmpty sub = false := by
            unfold tableEmpty
            have hlen : (sub.rows).length = min n ((densList t).length - s) := by
              show ((t.rows.drop s).take n).length = _
              rw [List.length_take, List.length_drop, hdlen]
            have hpos : 0 < (sub.rows).length := by
              rw [hlen]
              have h1 : 1 ≤ n := by omega
              omega
            have h1 : (sub.rows).isEmpty = false := by
              cases hx : sub.rows with
              | nil => rw [hx] at hpos; simp at hpos
              | cons a l => rfl
            have h2 : sub.cols.isEmpty = false := by
              cases hx : sub.cols with
              | nil =>
                  have : t.cols = [] := hx
                  exact absurd this hcols
              | cons a l => rfl
            rw [h1, h2]
            rfl
          have hsubhit : firstHit thr (densList sub) = some 0 := by
            refine (firstHit_eq_some_iff thr (densList sub) 0).mpr ?_
            refine ⟨?_, ?_, ?_⟩
            · rw [hsublen]
              have h1 : 1 ≤ n := by omega
              omega
            · rw [hsubgetD 0 (by omega)]
              simpa using hshit
            · intro j hj; omega
          obtain ⟨hq1, hqre, hqmax⟩ :=
            find_dense_region_hit sub thr 0 hsubne hsubhit
          -- the sub end is exactly E - s
          have hreach_sub : ReachEnd (densList sub) thr 0 (E - s) := by
            refine ⟨by omega, ?_, ?_, ?_⟩
            · rw [hsublen]; omega
            · rw [hsubgetD (E - s) (by omega)]
              have hsE : s + (E - s) = E := by omega
              rw [hsE]; exact hEhit
            · intro j hj hj0 hj2 htriple
              obtain ⟨m1, m2, m3⟩ := htriple
              rw [hsubgetD j (by omega)] at m1
              rw [hsubgetD (j + 1) (by omega)] at m2
              rw [hsubgetD (j + 2) (by omega)] at m3
              refine hEnt (s + j) (by omega) (by omega) (by omega) ?_
              refine ⟨m1, ?_, ?_⟩
              · have h1 : s + j + 1 = s + (j + 1) := by omega
                rw [h1]; exact m2
              · have h2 : s + j + 2 = s + (j + 2) := by omega
                rw [h2]; exact m3
          have hub : (find_dense_region sub thr).2 ≤ E - s := by
            have := hqre.2.1
            rw [hsublen] at this
            omega
          have hlb : E - s ≤ (find_dense_region sub thr).2 :=
            hqmax (E - s) hreach_sub
          have h2 : (find_dense_region sub thr).2 = E - s := by omega
          calc find_dense_region sub thr
              = ((find_dense_region sub thr).1,
                 (find_dense_region sub thr).2) := rfl
            _ = (0, E - s) := by rw [hq1, h2]

/-- Helper: the full extraction path is taken for a non-empty frame outside
the degenerate no-region case. -/
theorem extract_core_data_main (t : Table) (thr : ℚ)
    (h1 : tableEmpty t = false)
    (h2 : ¬((find_dense_region t thr).1 = 0 ∧
        (find_dense_region t thr).2 = 0 ∧
        ¬thr ≤ calculate_row_density (t.rows.getD 0 []))) :
    extract_core_data t thr =
      extractMain t (find_dense_region t thr).1
        (find_dense_region t thr).2 := by
  unfold extract_core_data
  rw [h1]
  simp only [Bool.false_eq_true, if_false]
  rw [if_neg h2]

/-- Helper: a non-empty core on the main path forces the data range to be
non-empty. -/
theorem mainCore_rows_ne (t : Table) (s e : Nat)
    (h : tableEmpty (mainCore t s e) = false) :
    mainHeader t s e + 1 ≤ e := by
  have hrows := (tableEmpty_false h).1
  unfold mainCore at hrows
  simp only at hrows
  by_contra hgt
  have hz : e + 1 - (mainHeader t s e + 1) = 0 := by omega
  rw [hz] at hrows
  simp at hrows

/-- Helper: field projections of the full-path result. -/
theorem extractMain_data_range (t : Table) (s e : Nat) :
    (extractMain t s e).data_range = (mainHeader t s e + 1, e) := rfl

/-- Helper: the full-path header field. -/
theorem extractMain_header_row (t : Table) (s e : Nat) :
    (extractMain t s e).header_row = some (mainHeader t s e) := rfl

/-- Helper: the full-path core field. -/
theorem extractMain_core (t : Table) (s e : Nat) :
    (extractMain t s e).core = mainCore t s e := rfl

/-- C2: the extracted core never contains the header row — its rows are
exactly the frame's rows in `data_range`, which starts right below the
header — and `data_range.start ≤ data_range.end` whenever the core is
non-empty. -/
theorem extract_core_data_invariants (t : Table) (thr : ℚ) :
    (∀ h, (extract_core_data t thr).header_row = some h →
      (extract_core_data t thr).data_range.1 = h + 1 ∧
      ¬((extract_core_data t thr).data_range.1 ≤ h ∧
          h ≤ (extract_core_data t thr).data_range.2) ∧
      ∃ cols : List Nat, (extract_core_data t thr).core.rows =
        ((t.rows.drop (h + 1)).take
            ((extract_core_data t thr).data_range.2 + 1 - (h + 1))).map
          (fun r => cols.map (fun j => r.getD j Cell.empty))) ∧
    (tableEmpty (extract_core_data t thr).core = false →
      (extract_core_data t thr).data_range.1 ≤
        (extract_core_data t thr).data_range.2) := by
  by_cases h1 : tableEmpty t = true
  · have hres : extract_core_data t thr =
        { core := t, metadata := [], header_row := none,
          data_range := (0, 0), footer := [], confidence := 0,
          warnings := ["Empty DataFrame provided"] } := by
      unfold extract_core_data
      rw [if_pos h1]
    rw [hres]
    constructor
    · intro h hh; exact absurd hh (by simp)
    · intro hcore; exact absurd h1 (by simp [hcore])
  · have h1' : tableEmpty t = false := by
      cases h : tableEmpty t
      · rfl
      · exact absurd h h1
    by_cases h2 : (find_dense_region t thr).1 = 0 ∧
        (find_dense_region t thr).2 = 0 ∧
        ¬thr ≤ calculate_row_density (t.rows.getD 0 [])
    · have hres : extract_core_data t thr =
          { core := t, metadata := [], header_row := none,
            data_range := (0, 0), footer := [], confidence := 3 / 10,
            warnings := ["No dense region found; returning entire DataFrame"] } := by
        unfold extract_core_data
        rw [h1']
        simp only [Bool.false_eq_true, if_false]
        rw [if_pos h2]
      rw [hres]
      constructor
      · intro h hh; exact absurd hh (by simp)
      · intro _; exact le_refl 0
    · rw [extract_core_data_main t thr h1' h2]
      constructor
      · intro h hh
        have hh' : h = mainHeader t (find_dense_region t thr).1
            (find_dense_region t thr).2 := by
          injection hh with hh; omega
        subst hh'
        rw [extractMain_data_range, extractMain_core]
        refine ⟨rfl, by simp, ?_⟩
        exact ⟨mainCols t (find_dense_region t thr).1
          (find_dense_region t thr).2, rfl⟩
      · intro hcore
        have := mainCore_rows_ne t (find_dense_region t thr).1
          (find_dense_region t thr).2 hcore
        simpa using this

/-- Helper: searching a single-row window, the header detector returns that
row or nothing. -/
theorem detect_header_row_single (t : Table) (r : Nat) :
    detect_header_row t r r = none ∨ detect_header_row t r r = some r := by
  unfold detect_header_row
  by_cases hemp : tableEmpty t = true
  · rw [if_pos hemp]; exact Or.inl rfl
  · rw [if_neg hemp]
    by_cases hr : r < t.rows.length
    · have hmin : min (r + 1) t.rows.length = r + 1 := by omega
      rw [hmin]
      have hidx : (List.range (r + 1)).drop r = [r] := by
        have hdl := List.drop_left (List.range r) [r]
        rw [List.length_range] at hdl
        rw [List.range_succ, hdl]
      rw [hidx]
      simp only [List.foldl_cons, List.foldl_nil]
      cases hsc : headerScore (t.rows.getD r []) (t.rows.get? (r + 1)) with
      | none => exact Or.inl rfl
      | some sc =>
          dsimp only
          by_cases hgt : sc > (-1 : ℚ)
          · rw [if_pos hgt]; exact Or.inr rfl
          · rw [if_neg hgt]; exact Or.inl rfl
    · have hmin : min (r + 1) t.rows.length = t.rows.length := by omega
      rw [hmin]
      have hidx : (List.range t.rows.length).drop r = [] := by
        apply List.drop_eq_nil_of_le
        rw [List.length_range]; omega
      rw [hidx]
      exact Or.inl rfl

/-- Helper: with a single-row dense region the chosen header is that row. -/
theorem mainHeader_single (t : Table) (r : Nat) :
    mainHeader t r r = r := by
  unfold mainHeader headerChoice
  have hmin : min (r + 3) r = r := by omega
  rw [hmin]
  rcases detect_header_row_single t r with h | h
  · rw [h]
  · rw [h]

/-- C10: when the dense region is a single row, that row is consumed as the
header: the core has zero data rows and `data_range = (r+1, r)`, whose
start exceeds its end. -/
theorem extract_single_row_region (t : Table) (thr : ℚ) (r : Nat)
    (h1 : tableEmpty t = false)
    (h2 : find_dense_region t thr = (r, r))
    (h3 : thr ≤ calculate_row_density (t.rows.getD r [])) :
    (extract_core_data t thr).core.rows = [] ∧
    (extract_core_data t thr).header_row = some r ∧
    (extract_core_data t thr).data_range = (r + 1, r) ∧
    (extract_core_data t thr).data_range.2 <
      (extract_core_data t thr).data_range.1 := by
  have hreg : ¬((find_dense_region t thr).1 = 0 ∧
      (find_dense_region t thr).2 = 0 ∧
      ¬thr ≤ calculate_row_density (t.rows.getD 0 [])) := by
    rw [h2]
    rintro ⟨ha, _, hc⟩
    simp only at ha
    subst ha
    exact hc h3
  rw [extract_core_data_main t thr h1 hreg, h2]
  simp only
  have hmh := mainHeader_single t r
  refine ⟨?_, ?_, ?_, ?_⟩
  · rw [extractMain_core]
    unfold mainCore
    rw [hmh]
    simp only
    have hz : r + 1 - (r + 1) = 0 := by omega
    rw [hz, List.take_zero, List.map_nil]
  · rw [extractMain_header_row, hmh]
  · rw [extractMain_data_range, hmh]
  · rw [extractMain_data_range, hmh]; omega

/-- Average row density of a table's rows. -/
def avgRowDensity (core : Table) : ℚ :=
  (core.rows.map calculate_row_density).sum / (core.rows.length : ℚ)

/-- The claim's confidence formula, written from the spec's words: start at
1.0, subtract 0.1 per warning, scale by `0.5 + 0.5 * avgRowDensity` when the
core is non-empty, subtract 0.2 when the extracted share of rows is below
0.1 and add 0.1 when it is above 0.8, subtract 0.15 when more than half of
the final column names are positional placeholders (`placeholderCount` is
the number of selected header cells that were empty), and clamp to [0, 1]. -/
def specConfidenceFormula (numWarnings : Nat) (core : Table)
    (placeholderCount : Nat) (gridRows : Nat) : ℚ :=
  let s0 : ℚ := 1 - (numWarnings : ℚ) * (1 / 10)
  let s1 := if ¬tableEmpty core then s0 * (1 / 2 + avgRowDensity core * (1 / 2))
    else s0
  let s2 :=
    if 0 < gridRows then
      let share := (core.rows.length : ℚ) / (gridRows : ℚ)
      if share < 1 / 10 then s1 - 2 / 10
      else if share > 8 / 10 then s1 + 1 / 10
      else s1
    else s1
  let s3 :=
    if ¬core.cols.isEmpty ∧
        (placeholderCount : ℚ) / (core.cols.length : ℚ) > 1 / 2
    then s2 - 15 / 100 else s2
  max 0 (min 1 s3)

/-- The amended formula: identical to the claim's but counting the column
names that start with the placeholder text `col_`, as the code does. -/
def specConfidenceColNames (numWarnings : Nat) (core : Table)
    (gridRows : Nat) : ℚ :=
  let s0 : ℚ := 1 - (numWarnings : ℚ) * (1 / 10)
  let s1 := if ¬tableEmpty core then s0 * (1 / 2 + avgRowDensity core * (1 / 2))
    else s0
  let s2 :=
    if 0 < gridRows then
      let share := (core.rows.length : ℚ) / (gridRows : ℚ)
      if share < 1 / 10 then s1 - 2 / 10
      else if share > 8 / 10 then s1 + 1 / 10
      else s1
    else s1
  let s3 :=
    if ¬core.cols.isEmpty ∧
        ((core.cols.countP (fun c => pyStartsWith c "col_")) : ℚ) /
            (core.cols.length : ℚ) > 1 / 2
    then s2 - 15 / 100 else s2
  max 0 (min 1 s3)

/-- Helper: the source's confidence computation agrees with the amended
formula. -/
theorem calculateConfidence_eq_colNames (df core : Table)
    (header_row : Option Nat) (data_start data_end : Nat)
    (dense_cols : List Nat) (warnings : List String) :
    calculateConfidence df core header_row data_start data_end dense_cols
        warnings =
      specConfidenceColNames warnings.length core df.rows.length := by
  unfold calculateConfidence specConfidenceColNames avgRowDensity
  by_cases hc : core.cols.isEmpty
  · simp [hc]
  · simp [hc]

/-- Helper: clamping keeps confidence within [0, 1]. -/
theorem confidence_bounds (x : ℚ) : 0 ≤ max 0 (min 1 x) ∧
    max 0 (min 1 x) ≤ 1 :=
  ⟨le_max_left 0 _, max_le zero_le_one (min_le_left 1 x)⟩

/-- C1 (amended): on the full extraction path, the confidence equals the
spec's formula with the placeholder test read as the code's prefix test on
final column names, and it always lies in [0, 1]. -/
theorem extract_confidence_amended (t : Table) (thr : ℚ)
    (h1 : tableEmpty t = false)
    (h2 : ¬((find_dense_region t thr).1 = 0 ∧
        (find_dense_region t thr).2 = 0 ∧
        ¬thr ≤ calculate_row_density (t.rows.getD 0 []))) :
    (extract_core_data t thr).confidence =
      specConfidenceColNames (extract_core_data t thr).warnings.length
        (extract_core_data t thr).core t.rows.length ∧
    0 ≤ (extract_core_data t thr).confidence ∧
    (extract_core_data t thr).confidence ≤ 1 := by
  rw [extract_core_data_main t thr h1 h2]
  set s := (find_dense_region t thr).1 with hs
  set e := (find_dense_region t thr).2 with he
  refine ⟨?_, ?_, ?_⟩
  · exact calculateConfidence_eq_colNames t (mainCore t s e)
      (some (mainHeader t s e)) (mainHeader t s e + 1) e (mainCols t s e)
      (mainWarnings t s e)
  · exact (confidence_bounds _).1
  · exact (confidence_bounds _).2

/-- A frame whose header cells are all non-empty but start with the
placeholder text `col_`; it reaches the full extraction path with no
warnings. -/
def gridC1 : Table :=
  ⟨["0", "1", "2"],
   [[Cell.str "col_a", Cell.str "col_b", Cell.str "name"],
    [Cell.str "x1", Cell.str "y1", Cell.str "z1"]]⟩

/-- C1 (counterexample): on `gridC1` the extraction records no warnings and
no header cell is empty, so there are no positional placeholders, yet the
returned confidence is 0.85 while the claim's formula gives 1 — the code's
`startswith('col_')` test fires on genuine header names. -/
theorem extract_confidence_counterexample :
    (extract_core_data gridC1 (2 / 5)).warnings = [] ∧
    (gridC1.rows.getD 0 []).all (fun v => !isEmptyCell v) = true ∧
    (extract_core_data gridC1 (2 / 5)).core.cols =
      ["col_a", "col_b", "name"] ∧
    (extract_core_data gridC1 (2 / 5)).confidence = 17 / 20 ∧
    specConfidenceFormula 0 (extract_core_data gridC1 (2 / 5)).core 0
      gridC1.rows.length = 1 ∧
    (extract_core_data gridC1 (2 / 5)).confidence ≠
      specConfidenceFormula 0 (extract_core_data gridC1 (2 / 5)).core 0
        gridC1.rows.length := by
  with_unfolding_all decide

/-- Witness for the amended C1 theorem at a concrete frame. -/
theorem extract_confidence_amended_witness :
    (extract_core_data gridC1 (2 / 5)).confidence =
      specConfidenceColNames
        (extract_core_data gridC1 (2 / 5)).warnings.length
        (extract_core_data gridC1 (2 / 5)).core gridC1.rows.length ∧
    0 ≤ (extract_core_data gridC1 (2 / 5)).confidence ∧
    (extract_core_data gridC1 (2 / 5)).confidence ≤ 1 :=
  extract_confidence_amended gridC1 (2 / 5) (by with_unfolding_all decide)
    (by with_unfolding_all decide)

/-- Witness for the C2 invariants at a concrete frame. -/
theorem extract_core_data_invariants_witness :
    (extract_core_data gridC1 (2 / 5)).data_range.1 = 0 + 1 ∧
    ¬((extract_core_data gridC1 (2 / 5)).data_range.1 ≤ 0 ∧
        0 ≤ (extract_core_data gridC1 (2 / 5)).data_range.2) ∧
    (extract_core_data gridC1 (2 / 5)).data_range.1 ≤
      (extract_core_data gridC1 (2 / 5)).data_range.2 := by
  have h := extract_core_data_invariants gridC1 (2 / 5)
  have h1 := h.1 0 (by with_unfolding_all decide)
  exact ⟨h1.1, h1.2.1, h.2 (by with_unfolding_all decide)⟩

/-- A fully populated two-cell row. -/
def rowFull : List Cell := [Cell.str "ab", Cell.str "cd"]

/-- An all-empty two-cell row. -/
def rowBlank : List Cell := [Cell.empty, Cell.empty]

/-- A frame with dense rows at 0 and 3, a 2-row gap after row 0 and a 3-row
gap after row 3: the region must end at row 3. -/
def gridGap : Table :=
  ⟨["0", "1"],
   [rowFull, rowBlank, rowBlank, rowFull, rowBlank, rowBlank, rowBlank,
    rowFull]⟩

/-- Witness for the C6 region characterisation at a concrete frame. -/
theorem find_dense_region_spec_witness :
    (find_dense_region gridGap (2 / 5)).1 = 0 ∧
    ReachEnd (densList gridGap) (2 / 5) 0
      (find_dense_region gridGap (2 / 5)).2 := by
  have h := (find_dense_region_spec gridGap (2 / 5)).2.2 0
    (by with_unfolding_all decide) (by with_unfolding_all decide)
    (by with_unfolding_all decide)
  exact ⟨h.1, h.2.1⟩

/-- A frame whose dense region is the single row 0. -/
def gridC10 : Table := ⟨["0", "1"], [[Cell.str "ab", Cell.str "cd"]]⟩

/-- Witness for the C10 single-row-region theorem at a concrete frame. -/
theorem extract_single_row_region_witness :
    (extract_core_data gridC10 (2 / 5)).core.rows = [] ∧
    (extract_core_data gridC10 (2 / 5)).data_range = (0 + 1, 0) := by
  have h := extract_single_row_region gridC10 (2 / 5) 0
    (by with_unfolding_all decide) (by with_unfolding_all decide)
    (by with_unfolding_all decide)
  exact ⟨h.1, h.2.2.1⟩

/-- Helper: `convCell` fixes the empty marker. -/
theorem convCell_empty (d : ColConv) : convCell d Cell.empty = Cell.empty := by
  cases d <;> rfl

/-- Helper: the decision list reads back the per-column decision. -/
theorem inferDecs_getD (t : Table) (j : Nat) (hj : j < t.cols.length) :
    (inferDecs t).getD j ColConv.keep = convDecision (colAt t j) := by
  rw [inferDecs, List.getD_eq_getElem?_getD, List.getElem?_map,
    List.getElem?_range hj]
  rfl

/-- Helper: `infer_types` transforms each column cellwise according to its
column's decision. -/
theorem infer_types_colAt (t : Table) (f : Option String) (j : Nat)
    (hj : j < t.cols.length) :
    colAt (infer_types t f) j =
      (colAt t j).map (convCell (convDecision (colAt t j))) := by
  have hdec := inferDecs_getD t j hj
  show (t.rows.map fun r => r.mapIdx fun i c =>
      convCell ((inferDecs t).getD i ColConv.keep) c).map
        (fun r => r.getD j Cell.empty) =
    (t.rows.map fun r => r.getD j Cell.empty).map
      (convCell (convDecision (colAt t j)))
  rw [List.map_map, List.map_map]
  refine List.map_congr_left ?_
  intro r _
  simp only [Function.comp]
  by_cases hjr : j < r.length
  · have hlen : j < (r.mapIdx fun i c =>
        convCell ((inferDecs t).getD i ColConv.keep) c).length := by
      rw [List.length_mapIdx]; exact hjr
    have hrj : r.getD j Cell.empty = r.get ⟨j, hjr⟩ := by
      rw [List.getD_eq_getElem?_getD, List.getElem?_eq_getElem hjr]
      rfl
    rw [List.getD_eq_getElem?_getD, List.getElem?_eq_getElem hlen,
      Option.getD_some, List.getElem_mapIdx, hdec, hrj]
    rfl
  · have h1 : (r.mapIdx fun i c =>
        convCell ((inferDecs t).getD i ColConv.keep) c).getD j Cell.empty =
        Cell.empty := by
      rw [List.getD_eq_getElem?_getD, List.getElem?_eq_none
        (by rw [List.length_mapIdx]; omega)]
      rfl
    have h2 : r.getD j Cell.empty = Cell.empty := by
      rw [List.getD_eq_getElem?_getD, List.getElem?_eq_none (by omega)]
      rfl
    rw [h1, h2, convCell_empty]

/-- Helper: the 50 percent share test, in count form. -/
theorem half_le_div_iff (c n : Nat) (hn : 0 < n) :
    (1 / 2 : ℚ) ≤ (c : ℚ) / (n : ℚ) ↔ n ≤ 2 * c := by
  rw [div_le_div_iff (by norm_num) (by exact_mod_cast hn)]
  constructor
  · intro h
    have : (n : ℚ) ≤ (c : ℚ) * 2 := by linarith
    exact_mod_cast (by linarith : (n : ℚ) ≤ 2 * (c : ℚ))
  · intro h
    have : (n : ℚ) ≤ 2 * (c : ℚ) := by exact_mod_cast h
    linarith

/-- A string column in which 75 percent of the values coerce to numeric
(the claim's first example). -/
def colTable1 : Table :=
  ⟨["a"], [[Cell.str "1"], [Cell.str "2"], [Cell.str "3"], [Cell.str "x"]]⟩

/-- A string column in which 25 percent of the values coerce to numeric
(the claim's second example). -/
def colTable2 : Table :=
  ⟨["a"], [[Cell.str "1"], [Cell.str "x"], [Cell.str "y"], [Cell.str "z"]]⟩

/-- A string column in which all of the NON-empty values coerce to numeric
but only a third of all values do. -/
def colTable3 : Table :=
  ⟨["a"], [[Cell.str "1"], [Cell.str ""], [Cell.str ""]]⟩

/-- C3 (counterexample): on the column `["1", "", ""]` every non-empty
value coerces to numeric — the claim's threshold over non-empty values is
met — yet `infer_types` leaves the table unchanged, because the code
divides the coercion successes by the TOTAL number of values. -/
theorem infer_types_counterexample :
    colIsObject (colAt colTable3 0) = true ∧
    ((colAt colTable3 0).filter (fun c => !isEmptyCell c)).length ≤
      2 * ((colAt colTable3 0).filter (fun c => !isEmptyCell c)).countP
        (fun c => (coerceNum c).isSome) ∧
    infer_types colTable3 none = colTable3 := by
  with_unfolding_all decide

/-- C3 (amended): for every string-typed (object) column, `infer_types`
converts it to numeric if and only if at least 50 percent of ALL its values
(empty ones included) coerce to numeric, with failures becoming null; a
datetime conversion applies under the same all-values threshold otherwise,
and the column is left untouched when both fail. -/
theorem infer_types_spec (t : Table) (j : Nat) (hj : j < t.cols.length)
    (hobj : colIsObject (colAt t j) = true) :
    ((colAt t j).length ≤
        2 * (colAt t j).countP (fun c => (coerceNum c).isSome) →
      colAt (infer_types t none) j =
        (colAt t j).map (convCell ColConv.toNum)) ∧
    (¬((colAt t j).length ≤
        2 * (colAt t j).countP (fun c => (coerceNum c).isSome)) →
      (colAt t j).length ≤
        2 * (colAt t j).countP (fun c => (coerceDate c).isSome) →
      colAt (infer_types t none) j =
        (colAt t j).map (convCell ColConv.toDate)) ∧
    (¬((colAt t j).length ≤
        2 * (colAt t j).countP (fun c => (coerceNum c).isSome)) →
      ¬((colAt t j).length ≤
        2 * (colAt t j).countP (fun c => (coerceDate c).isSome)) →
      colAt (infer_types t none) j = colAt t j) := by
  have hne : colAt t j ≠ [] := by
    intro hnil
    rw [hnil] at hobj
    simp [colIsObject] at hobj
  have hlen : 0 < (colAt t j).length := List.length_pos.mpr hne
  have hcol := infer_types_colAt t none j hj
  have hnum := half_le_div_iff
    ((colAt t j).countP (fun c => (coerceNum c).isSome)) (colAt t j).length
    hlen
  have hdate := half_le_div_iff
    ((colAt t j).countP (fun c => (coerceDate c).isSome)) (colAt t j).length
    hlen
  have hnshare : numOkShare (colAt t j) =
      ((colAt t j).countP (fun c => (coerceNum c).isSome) : ℚ) /
        ((colAt t j).length : ℚ) := by
    unfold numOkShare
    rw [if_neg (by omega)]
  have hdshare : dateOkShare (colAt t j) =
      ((colAt t j).countP (fun c => (coerceDate c).isSome) : ℚ) /
        ((colAt t j).length : ℚ) := by
    unfold dateOkShare
    rw [if_neg (by omega)]
  refine ⟨?_, ?_, ?_⟩
  · intro hcnt
    have hdec : convDecision (colAt t j) = ColConv.toNum := by
      unfold convDecision
      rw [if_neg (by simp [hobj]), if_pos (by rw [hnshare]; exact hnum.mpr hcnt)]
    rw [hcol, hdec]
  · intro hcnt1 hcnt2
    have hdec : convDecision (colAt t j) = ColConv.toDate := by
      unfold convDecision
      rw [if_neg (by simp [hobj]),
        if_neg (by rw [hnshare]; exact fun hc => hcnt1 (hnum.mp hc)),
        if_pos (by rw [hdshare]; exact hdate.mpr hcnt2)]
    rw [hcol, hdec]
  · intro hcnt1 hcnt2
    have hdec : convDecision (colAt t j) = ColConv.keep := by
      unfold convDecision
      rw [if_neg (by simp [hobj]),
        if_neg (by rw [hnshare]; exact fun hc => hcnt1 (hnum.mp hc)),
        if_neg (by rw [hdshare]; exact fun hc => hcnt2 (hdate.mp hc))]
    rw [hcol, hdec]
    calc List.map (convCell ColConv.keep) (colAt t j)
        = List.map id (colAt t j) := List.map_congr_left (fun c _ => rfl)
      _ = colAt t j := List.map_id _

/-- Witness for the amended C3 theorem at the claim's two example columns:
the 75 percent column becomes numeric with the failure null, the 25 percent
column stays string. -/
theorem infer_types_spec_witness :
    colAt (infer_types colTable1 none) 0 =
      [Cell.num 1, Cell.num 2, Cell.num 3, Cell.empty] ∧
    colAt (infer_types colTable2 none) 0 =
      [Cell.str "1", Cell.str "x", Cell.str "y", Cell.str "z"] := by
  constructor
  · have h := (infer_types_spec colTable1 0 (by decide)
      (by with_unfolding_all decide)).1 (by with_unfolding_all decide)
    rw [h]
    with_unfolding_all decide
  · have h := (infer_types_spec colTable2 0 (by decide)
      (by with_unfolding_all decide)).2.2 (by with_unfolding_all decide)
      (by with_unfolding_all decide)
    rw [h]
    with_unfolding_all decide

/-- A table used to exercise the cleaning dispatch. -/
def tblC4 : Table := ⟨["a"], []⟩

/-- A single custom cleaner distinguishable by its output. -/
def cleanerSingle : Cleaner := fun t _ => Except.ok ⟨["single"], t.rows⟩

/-- A listed cleaner distinguishable by its output. -/
def cleanerListed : Cleaner := fun t _ => Except.ok ⟨["listed"], t.rows⟩

/-- C4 (counterexample): when both an explicit cleaner list and a single
custom cleaner are supplied, `clean_dataframe` applies the SINGLE cleaner,
not the list — the claim's precedence order is reversed there. -/
theorem clean_dataframe_counterexample :
    clean_dataframe tblC4 none (some [cleanerListed]) (some cleanerSingle)
        none = Except.ok ⟨["single"], []⟩ ∧
    apply_cleaners tblC4 [cleanerListed] none =
      Except.ok ⟨["listed"], []⟩ ∧
    (⟨["single"], []⟩ : Table) ≠ ⟨["listed"], []⟩ :=
  ⟨rfl, rfl, by decide⟩

/-- C4 (amended): `clean_dataframe` resolves its arguments with precedence
single custom cleaner, then explicit list, then named preset (an unknown
name erroring), then the `standard` default; the `FileDrop` callback
resolves with precedence non-empty explicit list, then single cleaner, then
preset, applying no cleaning by default. -/
theorem clean_dataframe_precedence (df : Table) (filename : Option String) :
    (∀ p cs c, clean_dataframe df p cs (some c) filename = c df filename) ∧
    (∀ p cs, clean_dataframe df p (some cs) none filename =
      apply_cleaners df cs filename) ∧
    (∀ p, CLEANING_PRESETS p = none →
      clean_dataframe df (some p) none none filename =
        Except.error ("Unknown preset: " ++ p)) ∧
    (∀ p cs, CLEANING_PRESETS p = some cs →
      clean_dataframe df (some p) none none filename =
        apply_cleaners df cs filename) ∧
    (clean_dataframe df none none none filename =
      apply_cleaners df presetStandard filename) ∧
    (∀ c p a l, resolveCleaning (some (a :: l)) c p df filename =
      apply_cleaners df (a :: l) filename) ∧
    (∀ c p, resolveCleaning none (some c) p df filename = c df filename) ∧
    (∀ c p, resolveCleaning (some []) (some c) p df filename =
      c df filename) ∧
    (resolveCleaning none none none df filename = Except.ok df) := by
  refine ⟨fun p cs c => ?_, fun p cs => ?_, fun p hp => ?_,
    fun p cs hp => ?_, rfl, fun c p a l => ?_, fun c p => rfl,
    fun c p => rfl, rfl⟩
  · cases p <;> cases cs <;> rfl
  · cases p <;> rfl
  · simp only [clean_dataframe, hp]
  · simp only [clean_dataframe, hp]
  · rfl

/-- Witness for the amended C4 precedence theorem at concrete inputs. -/
theorem clean_dataframe_precedence_witness :
    clean_dataframe tblC4 (some "bogus") none none none =
      Except.error ("Unknown preset: " ++ "bogus") ∧
    clean_dataframe tblC4 (some "none") none none none =
      apply_cleaners tblC4 [] none ∧
    resolveCleaning (some [cleanerListed]) (some cleanerSingle) none tblC4
      none = apply_cleaners tblC4 [cleanerListed] none :=
  ⟨(clean_dataframe_precedence tblC4 none).2.2.1 "bogus" rfl,
   (clean_dataframe_precedence tblC4 none).2.2.2.1 "none" [] rfl,
   (clean_dataframe_precedence tblC4 none).2.2.2.2.2.1 (some cleanerSingle)
     none cleanerListed []⟩

/-- The single-table data map used against the combiner. -/
def dataC5 : List (String × Table) := [("a", ⟨["x"], [[Cell.num 1]]⟩)]

/-- C5 (counterexample): combining with a non-empty `include_metadata` list
but no metadata map raises nothing — `combine_dataframes` silently returns
the combined table without the requested `_k` column. -/
theorem combine_dataframes_counterexample :
    combine_dataframes dataC5 false true none (some ["k"]) =
      ⟨["x"], [[Cell.num 1]]⟩ ∧
    ¬("_k" ∈ (combine_dataframes dataC5 false true none
      (some ["k"])).cols) := by
  with_unfolding_all decide

/-- C5 (amended): `combine_dataframes` with no metadata map behaves exactly
as if no metadata keys had been requested; the hard error lives in
`FileDrop.combine`, which rejects a metadata request whenever
`extract_core` was not enabled. -/
theorem combine_metadata_amended :
    (∀ extracted data aS iI ks,
      data ≠ ([] : List (String × Table)) → ks ≠ ([] : List String) →
      fileDropCombine false extracted data none aS iI (some ks) =
        Except.error "include_metadata requires extract_core=True") ∧
    (∀ data aS iI im, combine_dataframes data aS iI none im =
      combine_dataframes data aS iI none none) := by
  constructor
  · intro extracted data aS iI ks hd hks
    have hde : data.isEmpty = false := by
      cases data with
      | nil => exact absurd rfl hd
      | cons a l => rfl
    have hkt : truthyOptList (some ks) = true := by
      cases ks with
      | nil => exact absurd rfl hks
      | cons a l => rfl
    unfold fileDropCombine
    rw [hde]
    simp only [Bool.false_eq_true, if_false]
    rw [if_pos ⟨hkt, trivial⟩]
  · intro data aS iI im
    unfold combine_dataframes
    by_cases hd : data.isEmpty = true
    · rw [if_pos hd, if_pos hd]
    · rw [if_neg hd, if_neg hd]
      congr 1
      refine List.map_congr_left ?_
      intro kv _
      cases htr : truthyOptList im
      · simp [htr]
      · simp [htr, truthyOptList]

/-- Witness for the amended C5 theorem at concrete inputs. -/
theorem combine_metadata_amended_witness :
    fileDropCombine false none dataC5 none false true (some ["k"]) =
      Except.error "include_metadata requires extract_core=True" ∧
    combine_dataframes dataC5 false true none (some ["k"]) =
      combine_dataframes dataC5 false true none none :=
  ⟨combine_metadata_amended.1 none dataC5 false true ["k"]
      (List.cons_ne_nil _ _) (List.cons_ne_nil _ _),
   combine_metadata_amended.2 dataC5 false true (some ["k"])⟩

/-- The post-extraction table a batch entry carries into the cleaning stage
of `on_data_ready`. -/
def afterExtract (extractCore : Bool) (df : Table) : Table :=
  if extractCore then (extract_core_data df (2 / 5)).core else df

/-- C9: a cleaning failure is caught per table — the failing table passes
through unmodified from the prior stage, and every other batch entry is
processed exactly as it would be alone; the failure never aborts the
batch. -/
theorem processBatch_fault_isolation (extractCore : Bool)
    (cleanersOpt : Option (List Cleaner)) (cleanerOpt : Option Cleaner)
    (presetOpt : Option String) (filename : Option String)
    (pre post : List (String × Table)) (k : String) (df : Table)
    (msg : String)
    (hfail : resolveCleaning cleanersOpt cleanerOpt presetOpt
      (afterExtract extractCore df) filename = Except.error msg) :
    processBatch extractCore cleanersOpt cleanerOpt presetOpt filename
        (pre ++ (k, df) :: post) =
      processBatch extractCore cleanersOpt cleanerOpt presetOpt filename
          pre ++
        (k, afterExtract extractCore df) ::
          processBatch extractCore cleanersOpt cleanerOpt presetOpt filename
            post := by
  unfold processBatch
  rw [List.map_append, List.map_cons]
  have hone : processOne extractCore cleanersOpt cleanerOpt presetOpt
      filename df = afterExtract extractCore df := by
    show (match resolveCleaning cleanersOpt cleanerOpt presetOpt
        (afterExtract extractCore df) filename with
      | Except.ok d => d
      | Except.error _ => afterExtract extractCore df) =
      afterExtract extractCore df
    rw [hfail]
  rw [hone]

/-- A cleaner that fails exactly on the table named `bad`. -/
def cleanerSelective : Cleaner := fun t _ =>
  if t.cols = ["bad"] then Except.error "boom"
  else Except.ok ⟨["ok"], t.rows⟩

/-- Witness for the C9 fault-isolation theorem: in a three-table batch only
the failing middle table passes through; its neighbours are cleaned. -/
theorem processBatch_fault_isolation_witness :
    processBatch false none (some cleanerSelective) none none
        [("a", ⟨["x"], []⟩), ("b", ⟨["bad"], []⟩), ("c", ⟨["y"], []⟩)] =
      [("a", ⟨["ok"], []⟩), ("b", ⟨["bad"], []⟩), ("c", ⟨["ok"], []⟩)] := by
  have h := processBatch_fault_isolation false none (some cleanerSelective)
    none none [("a", ⟨["x"], []⟩)] [("c", ⟨["y"], []⟩)] "b" ⟨["bad"], []⟩
    "boom" rfl
  exact h

/-- Spec-side formulation of the claim's run replacement, emitting the
underscore at the END of each run: a character outside the class is dropped
when another outside character follows, and becomes a single underscore
otherwise. -/
def specSub (p : Char → Bool) : List Char → List Char
  | [] => []
  | c :: rest =>
      if p c then c :: specSub p rest
      else
        match rest.head? with
        | none => ['_']
        | some d => if p d then '_' :: specSub p rest else specSub p rest

/-- Mid-run form of `specSub`: the remainder of a run already opened. -/
def tailSpec (p : Char → Bool) : List Char → List Char
  | [] => []
  | c :: rest => if p c then specSub p (c :: rest) else tailSpec p rest

/-- Helper: the spec-side replacement of a run already opened by one
non-kept character. -/
theorem tailSpec_cons (p : Char → Bool) :
    ∀ (l : List Char) (c : Char), p c = false →
      '_' :: tailSpec p l = specSub p (c :: l) := by
  intro l
  induction l with
  | nil =>
      intro c hc
      rw [specSub, if_neg (by simp [hc])]
      rfl
  | cons d r ih =>
      intro c hc
      rw [specSub, if_neg (by simp [hc])]
      simp only [List.head?_cons]
      by_cases hd : p d = true
      · simp only [hd, if_true]
        rw [tailSpec, if_pos hd]
      · have hd2 : p d = false := by
          cases hpd : p d
          · rfl
          · exact absurd hpd hd
        simp only [hd2, Bool.false_eq_true, if_false]
        rw [tailSpec, if_neg (by simp [hd2])]
        exact ih d hd2

/-- Helper: the code's left-to-right automaton for run replacement agrees
with the spec-side formulation in both of its states. -/
theorem subRunsGo_eq_specSub (p : Char → Bool) :
    ∀ l : List Char,
      subRunsGo p l false = specSub p l ∧
        subRunsGo p l true = tailSpec p l := by
  intro l
  induction l with
  | nil => exact ⟨rfl, rfl⟩
  | cons c r ih =>
      by_cases hc : p c = true
      · constructor
        · rw [subRunsGo, if_pos hc, specSub, if_pos hc, ih.1]
        · rw [subRunsGo, if_pos hc, tailSpec, if_pos hc, specSub,
            if_pos hc, ih.1]
      · have hc2 : p c = false := by
          cases hpc : p c
          · rfl
          · exact absurd hpc hc
        constructor
        · rw [subRunsGo, if_neg (by simp [hc2]), if_neg (by simp)]
          rw [ih.2]
          exact tailSpec_cons p r c hc2
        · rw [subRunsGo, if_neg (by simp [hc2]), if_pos rfl, tailSpec,
            if_neg (by simp [hc2]), ih.2]

/-- Spec-side normalisation of one column name, written from the claim's
words with the end-of-run replacement formulation and the plain word-class
`[A-Za-z0-9_]`. -/
def specNormalizeName (col : String) : String :=
  let s1 := pyStrip col
  let s2 := lowerStr s1
  let s3 := String.mk (specSub isWordChar s2.toList)
  let s4 := stripUnderscores s3
  if strIsEmpty s4 then "unnamed" else s4

/-- Occurrence count of a name in a list (spec-side). -/
def countOcc (c : String) : List String → Nat
  | [] => 0
  | d :: rest => (if d = c then 1 else 0) + countOcc c rest

/-- Spec-side duplicate suffixing: each name's suffix is the number of its
previous occurrences, `name, name_1, name_2, ...` in encounter order. -/
def specDedup (l : List String) : List String :=
  l.mapIdx fun i c =>
    if countOcc c (l.take i) = 0 then c
    else c ++ "_" ++ toString (countOcc c (l.take i))

/-- Helper: occurrence counts add over append. -/
theorem countOcc_append (c : String) :
    ∀ l1 l2 : List String,
      countOcc c (l1 ++ l2) = countOcc c l1 + countOcc c l2 := by
  intro l1 l2
  induction l1 with
  | nil => simp [countOcc]
  | cons d r ih => simp [countOcc, ih]; omega

/-- Helper: reading the counter map after an update. -/
theorem seenGet_seenSet (c : String) (v : Nat) :
    ∀ (seen : List (String × Nat)) (a : String),
      seenGet a (seenSet c v seen) =
        if c = a then (seenGet c seen).map (fun _ => v)
        else seenGet a seen := by
  intro seen
  induction seen with
  | nil =>
      intro a
      by_cases h : c = a <;> simp [seenSet, seenGet, h]
  | cons q rest ih =>
      intro a
      rw [seenSet]
      by_cases hq : q.1 = c
      · rw [if_pos hq, seenGet]
        by_cases hca : c = a
        · rw [if_pos hca, if_pos hca, seenGet, if_pos hq]
          rfl
        · rw [if_neg hca, if_neg hca, ih a, if_neg hca, seenGet,
            if_neg (by rw [hq]; exact hca)]
      · rw [if_neg hq, seenGet]
        by_cases hqa : q.1 = a
        · have hca : ¬c = a := by
            intro h
            exact hq (by rw [h, hqa])
          rw [if_pos hqa, if_neg hca, seenGet, if_pos hqa]
        · rw [if_neg hqa, ih a]
          by_cases hca : c = a
          · rw [if_pos hca, if_pos hca, seenGet, if_neg (by rw [hca]; exact hqa)]
          · rw [if_neg hca, if_neg hca, seenGet, if_neg hqa]

/-- Helper: `mapIdx` respects pointwise-equal functions. -/
theorem mapIdx_congr {α β : Type} :
    ∀ (l : List α) (f g : Nat → α → β), (∀ i a, f i a = g i a) →
      l.mapIdx f = l.mapIdx g := by
  intro l
  induction l with
  | nil => intro f g h; rfl
  | cons c r ih =>
      intro f g h
      rw [List.mapIdx_cons, List.mapIdx_cons, h 0 c,
        ih (fun i => f (i + 1)) (fun i => g (i + 1)) (fun i a => h (i + 1) a)]

/-- Helper: the counter-map dedup scan equals the spec-side
count-of-previous-occurrences formulation, relative to the names already
processed. -/
theorem dedupNames_eq_specDedup_general :
    ∀ (l prior : List String) (seen : List (String × Nat)),
      (∀ a, seenGet a seen =
        if countOcc a prior = 0 then none
        else some (countOcc a prior - 1)) →
      dedupNames l seen = l.mapIdx (fun i c =>
        if countOcc c prior + countOcc c (l.take i) = 0 then c
        else c ++ "_" ++ toString (countOcc c prior + countOcc c (l.take i)))
    := by
  intro l
  induction l with
  | nil => intro prior seen hseen; rfl
  | cons c rest ih =>
      intro prior seen hseen
      have hc := hseen c
      rw [List.mapIdx_cons]
      cases hg : seenGet c seen with
      | none =>
          rw [hg] at hc
          have hzero : countOcc c prior = 0 := by
            by_contra hnz
            rw [if_neg hnz] at hc
            exact absurd hc (by simp)
          rw [dedupNames, hg]
          dsimp only
          have hhead : (if countOcc c prior +
              countOcc c ((c :: rest).take 0) = 0 then c
            else c ++ "_" ++ toString (countOcc c prior +
              countOcc c ((c :: rest).take 0))) = c := by
            rw [if_pos (by simp [countOcc, hzero])]
          rw [hhead]
          congr 1
          rw [ih (prior ++ [c]) ((c, 0) :: seen) ?_]
          · refine mapIdx_congr rest _ _ ?_
            intro i a
            have hsum : countOcc a (prior ++ [c]) +
                countOcc a (rest.take i) =
                countOcc a prior + countOcc a ((c :: rest).take (i + 1)) := by
              rw [countOcc_append, List.take_succ_cons]
              simp [countOcc]
              omega
            rw [hsum]
          · intro a
            rw [seenGet]
            by_cases hca : c = a
            · subst hca
              rw [if_pos rfl, countOcc_append]
              rw [if_neg (by simp [countOcc, hzero])]
              simp [countOcc, hzero]
            · rw [if_neg hca, hseen a, countOcc_append]
              have h0 : countOcc a [c] = 0 := by simp [countOcc, hca]
              rw [h0, Nat.add_zero]
      | some k =>
          rw [hg] at hc
          have hnz : countOcc c prior ≠ 0 := by
            by_contra hz
            rw [if_pos hz] at hc
            exact absurd hc (by simp)
          rw [if_neg hnz] at hc
          have hk : k = countOcc c prior - 1 := Option.some.inj hc
          rw [dedupNames, hg]
          dsimp only
          have hhead : (if countOcc c prior +
              countOcc c ((c :: rest).take 0) = 0 then c
            else c ++ "_" ++ toString (countOcc c prior +
              countOcc c ((c :: rest).take 0))) =
              c ++ "_" ++ toString (k + 1) := by
            rw [if_neg (by simp [countOcc]; omega)]
            have : countOcc c prior + countOcc c ((c :: rest).take 0) =
                k + 1 := by
              simp [countOcc]
              omega
            rw [this]
          rw [hhead]
          congr 1
          rw [ih (prior ++ [c]) (seenSet c (k + 1) seen) ?_]
          · refine mapIdx_congr rest _ _ ?_
            intro i a
            have hsum : countOcc a (prior ++ [c]) +
                countOcc a (rest.take i) =
                countOcc a prior + countOcc a ((c :: rest).take (i + 1)) := by
              rw [countOcc_append, List.take_succ_cons]
              simp [countOcc]
              omega
            rw [hsum]
          · intro a
            rw [seenGet_seenSet c (k + 1) seen a]
            by_cases hca : c = a
            · subst hca
              rw [if_pos rfl, hg, countOcc_append]
              rw [if_neg (by
                simp only [countOcc, eq_self_iff_true, if_true]; omega)]
              simp only [Option.map_some', Option.some.injEq, countOcc,
                eq_self_iff_true, if_true]
              omega
            · rw [if_neg hca, hseen a, countOcc_append]
              have h0 : countOcc a [c] = 0 := by simp [countOcc, hca]
              rw [h0, Nat.add_zero]

/-- Helper: the dedup scan from an empty counter map is the spec-side
suffixing. -/
theorem dedupNames_eq_specDedup (l : List String) :
    dedupNames l [] = specDedup l := by
  rw [dedupNames_eq_specDedup_general l [] [] (by intro a; simp [seenGet, countOcc])]
  unfold specDedup
  refine mapIdx_congr l _ _ ?_
  intro i a
  simp [countOcc]

/-- Helper: with default options the per-name normalisation matches the
spec-side formulation. -/
theorem normalizeName_eq_spec (col : String) :
    normalizeName false false false col = specNormalizeName col := by
  have hp : keptChar false false = isWordChar := funext fun c => by
    simp [keptChar]
  have hgo := (subRunsGo_eq_specSub isWordChar
    (lowerStr (pyStrip col)).toList).1
  simp only [normalizeName, specNormalizeName, Bool.false_eq_true,
    if_false, hp, hgo]

/-- C8: with default options, `normalize_columns` maps each name by the
claim's trim/lowercase/run-replacement/strip/unnamed pipeline and suffixes
the k-th repetition of a resulting name with `_k` in encounter order; in
particular `["Sample ID", "Test Type", "Sample ID"]` becomes
`["sample_id", "test_type", "sample_id_1"]`. -/
theorem normalize_columns_spec (t : Table) :
    (normalize_columns t none false false false).cols =
      specDedup (t.cols.map specNormalizeName) ∧
    (normalize_columns ⟨["Sample ID", "Test Type", "Sample ID"], []⟩ none
        false false false).cols =
      ["sample_id", "test_type", "sample_id_1"] := by
  constructor
  · show dedupNames (t.cols.map (normalizeName false false false)) [] = _
    rw [List.map_congr_left (fun c _ => normalizeName_eq_spec c)]
    exact dedupNames_eq_specDedup _
  · with_unfolding_all decide
